import Mathlib

/-!
Verification of the BookBeat reading-list repository: the `script.js`
normalizer (ISBN cleaning and extraction, bucket processing) and the
`fetch-covers.js` cover-resolution pipeline.

JavaScript values are modelled by the inductive `JVal` (numbers as `Int`;
object identity is approximated structurally).  Host functions
(`new Date`, `JSON.parse`, the network) are modelled as explicit
environment parameters.  Stateful code is modelled by explicit state
passing; the network log (list of requested URLs) is threaded through the
monad `M` below, and thrown exceptions are modelled with `Except Unit`.
-/

/-- Model of a JavaScript/JSON value. -/
inductive JVal where
  | undefined
  | null
  | bool (b : Bool)
  | num (n : Int)
  | str (s : String)
  | arr (elems : List JVal)
  | obj (fields : List (String × JVal))
deriving Repr

/-- JavaScript truthiness: `undefined`, `null`, `false`, `0` and `""` are
falsy; arrays and objects are always truthy. -/
def truthy : JVal → Bool
  | .undefined => false
  | .null => false
  | .bool b => b
  | .num n => n != 0
  | .str s => s != ""
  | .arr _ => true
  | .obj _ => true

mutual
/-- Structural equality of JS values (models `===` / SameValueZero on
primitives; object identity is approximated structurally). -/
def jEq : JVal → JVal → Bool
  | .undefined, .undefined => true
  | .null, .null => true
  | .bool a, .bool b => a == b
  | .num a, .num b => a == b
  | .str a, .str b => a == b
  | .arr xs, .arr ys => jEqList xs ys
  | .obj fs, .obj gs => jEqFields fs gs
  | _, _ => false

def jEqList : List JVal → List JVal → Bool
  | [], [] => true
  | x :: xs, y :: ys => jEq x y && jEqList xs ys
  | _, _ => false

def jEqFields : List (String × JVal) → List (String × JVal) → Bool
  | [], [] => true
  | (k, v) :: fs, (k2, v2) :: gs => k == k2 && jEq v v2 && jEqFields fs gs
  | _, _ => false
end

mutual
/-- JS `String(v)` / template-literal stringification. -/
def jToStr : JVal → String
  | .undefined => "undefined"
  | .null => "null"
  | .bool true => "true"
  | .bool false => "false"
  | .num n => toString n
  | .str s => s
  | .arr xs => jToStrList xs
  | .obj _ => "[object Object]"

def jToStrList : List JVal → String
  | [] => ""
  | [x] => jToStr x
  | x :: y :: xs => jToStr x ++ "," ++ jToStrList (y :: xs)
end

/-- First-match association-list lookup for object fields. -/
def jLookup (k : String) : List (String × JVal) → Option JVal
  | [] => none
  | (k2, v) :: fs => if k2 = k then some v else jLookup k fs

/-- JS property access `v.k`: throws (TypeError) on `null`/`undefined`,
yields `undefined` on missing fields and on primitives. -/
def jGet (v : JVal) (k : String) : Except Unit JVal :=
  match v with
  | .undefined => .error ()
  | .null => .error ()
  | .obj fs => .ok ((jLookup k fs).getD .undefined)
  | _ => .ok .undefined

/-- JS optional property access `v?.k`: yields `undefined` instead of
throwing when `v` is nullish. -/
def jGetQ (v : JVal) (k : String) : Except Unit JVal :=
  match v with
  | .undefined => .ok .undefined
  | .null => .ok .undefined
  | _ => jGet v k

/-- JS numeric index access `v[n]`. -/
def jIndex (v : JVal) (n : Nat) : Except Unit JVal :=
  match v with
  | .undefined => .error ()
  | .null => .error ()
  | .arr xs => .ok ((xs.get? n).getD .undefined)
  | .obj fs => .ok ((jLookup (toString n) fs).getD .undefined)
  | .str s => .ok (((s.data.get? n).map fun c => JVal.str (String.mk [c])).getD .undefined)
  | _ => .ok .undefined

/-- JS optional index access `v?.[n]`. -/
def jIndexQ (v : JVal) (n : Nat) : Except Unit JVal :=
  match v with
  | .undefined => .ok .undefined
  | .null => .ok .undefined
  | _ => jIndex v n

/-- JS `a || b`. -/
def jOr (a b : JVal) : JVal := if truthy a then a else b

/-- JS `a || null` (used to normalize optional author values). -/
def jOrNull (a : JVal) : JVal := if truthy a then a else .null

/-- JS strict equality of a value with a string literal (`v === "s"`). -/
def jStrEq (v : JVal) (s : String) : Bool :=
  match v with
  | .str t => t == s
  | _ => false

/-- JS `for (x of v)`: arrays yield their elements, strings their
characters; anything else throws (TypeError: not iterable). -/
def jIterate : JVal → Except Unit (List JVal)
  | .arr xs => .ok xs
  | .str s => .ok (s.data.map fun c => JVal.str (String.mk [c]))
  | _ => .error ()

/-- JS `.map`/`.filter` receiver: must be an array, else TypeError. -/
def jElems : JVal → Except Unit (List JVal)
  | .arr xs => .ok xs
  | _ => .error ()

/-- `cleanISBN` (script.js line 135 and inlined in fetch-covers.js line 36):
`String(isbn).replace(/[^0-9X]/gi, '')`.  The case-insensitive negated
class keeps digits and both `X` and `x`; `replace` only deletes, so kept
characters retain their case. -/
def cleanISBN (isbn : JVal) : String :=
  String.mk ((jToStr isbn).data.filter fun c => c.isDigit || c == 'X' || c == 'x')

/-! ### script.js: the reading-data normalizer -/

/-- Environment modelling the host date facilities: `parseDate` models
`new Date(v).getTime()` (`none` = Invalid Date / NaN), `msToYear` models
`Date.prototype.getFullYear` on a valid timestamp. -/
structure DateEnv where
  parseDate : JVal → Option Int
  msToYear : Int → Int

/-- `extractYear` (script.js lines 140-149). -/
def extractYear (denv : DateEnv) (dateString : JVal) : Option Int :=
  if truthy dateString then
    match denv.parseDate dateString with
    | none => none
    | some ms => some (denv.msToYear ms)
  else none

/-- The tag test `(edition.format === tag || edition.type === tag)`,
with JS evaluation order (format first, short-circuit). -/
def editionHasTag (e : JVal) (tag : String) : Except Unit Bool := do
  let f ← jGet e "format"
  if jStrEq f tag then pure true
  else do
    let t ← jGet e "type"
    pure (jStrEq t tag)

/-- First loop of `extractAllISBNs` (script.js lines 101-105): push the
cleaned ISBN of every eBook-tagged edition, with no duplicate check. -/
def ebookPass : List JVal → List String → Except Unit (List String)
  | [], acc => .ok acc
  | e :: es, acc => do
      let isEb ← editionHasTag e "eBook"
      if isEb then do
        let i ← jGet e "isbn"
        if truthy i then ebookPass es (acc ++ [cleanISBN i])
        else ebookPass es acc
      else ebookPass es acc

/-- Second loop of `extractAllISBNs` (script.js lines 108-115): audioBook
editions, skipping values already present. -/
def audioPass : List JVal → List String → Except Unit (List String)
  | [], acc => .ok acc
  | e :: es, acc => do
      let isAb ← editionHasTag e "audioBook"
      if isAb then do
        let i ← jGet e "isbn"
        if truthy i then
          if acc.contains (cleanISBN i) then audioPass es acc
          else audioPass es (acc ++ [cleanISBN i])
        else audioPass es acc
      else audioPass es acc

/-- Third loop of `extractAllISBNs` (script.js lines 118-125): any other
ISBN-bearing edition, skipping values already present. -/
def otherPass : List JVal → List String → Except Unit (List String)
  | [], acc => .ok acc
  | e :: es, acc => do
      let i ← jGet e "isbn"
      if truthy i then
        if acc.contains (cleanISBN i) then otherPass es acc
        else otherPass es (acc ++ [cleanISBN i])
      else otherPass es acc

/-- `extractAllISBNs` (script.js lines 94-128).  Non-arrays (including
falsy values) yield `[]`; property access on a `null` array element
throws, which propagates as `.error`. -/
def extractAllISBNs (editions : JVal) : Except Unit (List String) :=
  match editions with
  | .arr es => do
      let a ← ebookPass es []
      let b ← audioPass es a
      otherPass es b
  | _ => .ok []

/-- A processed finished-bucket record (script.js lines 71-77). -/
structure FinishedRec where
  title : JVal
  bookId : JVal
  isbns : List String
  finishedDate : JVal
  year : Option Int
deriving Repr

/-- A processed saved-bucket record (script.js lines 83-89). -/
structure SavedRec where
  title : JVal
  bookId : JVal
  isbns : List String
  date : JVal
  year : Option Int
deriving Repr

/-- The `.map` callback for the finished bucket (script.js lines 71-77);
note the id is read from `book.bookId` only. -/
def mkFinishedRec (denv : DateEnv) (book : JVal) : Except Unit FinishedRec := do
  let t ← jGet book "title"
  let bid ← jGet book "bookId"
  let eds ← jGet book "editions"
  let isbns ← extractAllISBNs eds
  let fd ← jGet book "finishedDate"
  pure { title := t, bookId := bid, isbns := isbns, finishedDate := fd,
         year := extractYear denv fd }

/-- The `.map` callback for the saved bucket (script.js lines 83-89);
the id is `book.bookid || book.bookId`. -/
def mkSavedRec (denv : DateEnv) (book : JVal) : Except Unit SavedRec := do
  let t ← jGet book "title"
  let b1 ← jGet book "bookid"
  let bid ← if truthy b1 then pure b1 else jGet book "bookId"
  let eds ← jGet book "editions"
  let isbns ← extractAllISBNs eds
  let d ← jGet book "date"
  pure { title := t, bookId := bid, isbns := isbns, date := d,
         year := extractYear denv d }

/-- The JS truthiness of a record's derived `year` (null is falsy, and so
is the number 0). -/
def truthyYear : Option Int → Bool
  | none => false
  | some n => n != 0

/-- `new Date(v).getTime()` as used by the sort comparators; records that
reach the sort have passed the year filter, so `parseDate` is `some`
there and the `getD` default is never relevant on filtered records. -/
def timeOf (denv : DateEnv) (v : JVal) : Int :=
  (denv.parseDate v).getD 0

/-- Sort order of the finished list: the comparator
`(a, b) => new Date(b.finishedDate) - new Date(a.finishedDate)` puts `a`
before `b` when the comparator is `<= 0`, i.e. time descending. -/
def finLe (denv : DateEnv) (a b : FinishedRec) : Bool :=
  decide (timeOf denv b.finishedDate ≤ timeOf denv a.finishedDate)

/-- Sort order of the saved list (script.js line 91). -/
def savLe (denv : DateEnv) (a b : SavedRec) : Bool :=
  decide (timeOf denv b.date ≤ timeOf denv a.date)

/-- `findCategory` inside `processBooks` (script.js lines 57-64). -/
def jFindType : List JVal → String → Except Unit (Option JVal)
  | [], _ => .ok none
  | x :: xs, ty => do
      let t ← jGet x "type"
      if jStrEq t ty then .ok (some x) else jFindType xs ty

def findCategory (data : JVal) (ty : String) : Except Unit JVal :=
  match data with
  | .arr items => do
      let c ← jFindType items ty
      match c with
      | some cat => jGet cat "books"
      | none => .ok (.arr [])
  | _ => do
      let v ← jGet data ty
      .ok (jOr v (.arr []))

/-- The normalizer state set by `processBooks` (script.js lines 26-30,
70-91). -/
structure PageState where
  finishedBooks : List FinishedRec
  savedBooks : List SavedRec
deriving Repr

/-- JS `Array.prototype.map` with a callback that may throw. -/
def exMap (f : JVal → Except Unit β) : List JVal → Except Unit (List β)
  | [] => .ok []
  | x :: xs => do
      let y ← f x
      let ys ← exMap f xs
      pure (y :: ys)

/-- `processBooks` (script.js lines 54-92): map each raw bucket entry to a
record, keep those with a truthy year and title, sort by date descending
(JS sort on a consistent comparator is the stable merge sort). -/
def processBooks (denv : DateEnv) (data : JVal) : Except Unit PageState := do
  let finishedRaw ← findCategory data "myfinishedbooks"
  let savedRaw ← findCategory data "mysavedbooks"
  let finRaws ← jElems finishedRaw
  let finRecs ← exMap (mkFinishedRec denv) finRaws
  let finishedBooks :=
    (finRecs.filter fun r => truthyYear r.year && truthy r.title).mergeSort (finLe denv)
  let savRaws ← jElems savedRaw
  let savRecs ← exMap (mkSavedRec denv) savRaws
  let savedBooks :=
    (savRecs.filter fun r => truthyYear r.year && truthy r.title).mergeSort (savLe denv)
  pure { finishedBooks := finishedBooks, savedBooks := savedBooks }

/-! ### fetch-covers.js: the cover-resolution pipeline -/

/-- A downloaded response body (Node `Buffer`) as a byte list. -/
abbrev Buf : Type := List Nat

/-- The pipeline monad: threads the list of requested URLs (the network
log) and models thrown exceptions with `Except Unit`.  A URL is logged
even when the request fails, since a network call was still issued. -/
def M (α : Type) : Type := List String → Except Unit α × List String

instance : Monad M where
  pure a := fun l => (.ok a, l)
  bind x f := fun l =>
    match x l with
    | (.ok a, l2) => f a l2
    | (.error e, l2) => (.error e, l2)

/-- Lift a possibly-throwing pure computation (e.g. a property access)
into the pipeline monad. -/
def liftE (e : Except Unit α) : M α := fun l => (e, l)

/-- JS `try { body } catch (e) { }` with result `fallback` when the body
throws. -/
def tryCatch (body : M α) (fallback : α) : M α := fun l =>
  match body l with
  | (.ok a, l2) => (.ok a, l2)
  | (.error _, l2) => (.ok fallback, l2)

/-- The external world of fetch-covers.js: `fetchUrl` maps a URL to the
final response body or a failure (redirects are followed inside it);
`parseJson` models `JSON.parse(buffer.toString())`; `exportData` models
reading and parsing `BookBeat.json`. -/
structure Net where
  fetchUrl : String → Except Unit Buf
  parseJson : Buf → Except Unit JVal
  exportData : Except Unit JVal

/-- `fetchUrl` wrapped in the log (fetch-covers.js lines 61-83). -/
def netFetch (env : Net) (url : String) : M Buf := fun l =>
  (env.fetchUrl url, l ++ [url])

/-- `fetchJson` (fetch-covers.js lines 86-89). -/
def fetchJson (env : Net) (url : String) : M JVal := do
  let b ← netFetch env url
  liftE (env.parseJson b)

/-- A successful cover lookup: the image bytes and an author value. -/
structure CoverResult where
  buffer : Buf
  author : JVal

/-- Percent-encoding of `encodeURIComponent` (unreserved characters pass
through, everything else becomes the %XX codes of its UTF-8 bytes). -/
def hexDigit (n : Nat) : Char :=
  if n < 10 then Char.ofNat (48 + n) else Char.ofNat (55 + n)

def percentByte (b : Nat) : String :=
  String.mk ['%', hexDigit (b / 16 % 16), hexDigit (b % 16)]

def uriUnreserved (c : Char) : Bool :=
  c.isAlphanum || c == '-' || c == '_' || c == '.' || c == '!' ||
    c == '~' || c == '*' || c == '(' || c == ')'

def encodeURIComponent (s : String) : String :=
  s.data.foldl
    (fun acc c =>
      if uriUnreserved c then acc ++ String.mk [c]
      else acc ++ String.join ((String.mk [c]).toUTF8.toList.map
        fun b => percentByte b.toNat))
    ""

/-- JS `String.prototype.trim`: drop whitespace from both ends. -/
def jsTrim (l : List Char) : List Char :=
  ((l.dropWhile Char.isWhitespace).reverse.dropWhile Char.isWhitespace).reverse

/-- Title normalization in the title-search fallbacks (fetch-covers.js
lines 159-163 and 206): take the part before the first colon
(`split(':')[0]`), then before the first period, replace non-word
non-space characters by spaces, trim.  Throws (TypeError) when the title
is not a string. -/
def cleanTitleStr (s : String) : String :=
  let s1 := s.data.takeWhile fun c => c ≠ ':'
  let s2 := s1.takeWhile fun c => c ≠ '.'
  let s3 := s2.map fun c =>
    if c.isAlphanum || c == '_' || c.isWhitespace then c else ' '
  String.mk (jsTrim s3)

def cleanTitle (title : JVal) : Except Unit String :=
  match title with
  | .str s => .ok (cleanTitleStr s)
  | _ => .error ()

/-- URL builders of fetch-covers.js. -/
def olSearchIsbnUrl (isbn : String) : String :=
  "https://openlibrary.org/search.json?isbn=" ++ isbn ++ "&limit=1"

def olCoverIdUrl (coverId : String) : String :=
  "https://covers.openlibrary.org/b/id/" ++ coverId ++ "-L.jpg"

def olCoverIsbnUrl (isbn : String) : String :=
  "https://covers.openlibrary.org/b/isbn/" ++ isbn ++ "-L.jpg"

def gbSearchUrl (isbn : String) : String :=
  "https://www.googleapis.com/books/v1/volumes?q=isbn:" ++ isbn

def olTitleUrl (title : String) (limit : Nat) : String :=
  "https://openlibrary.org/search.json?title=" ++ encodeURIComponent title ++
    "&limit=" ++ toString limit

/-- JS `String.prototype.replace` with a nonempty string pattern replaces
only the first occurrence. -/
def replaceFirstAux (pat repl : List Char) : List Char → List Char
  | [] => []
  | c :: rest =>
      if (c :: rest).take pat.length = pat then repl ++ (c :: rest).drop pat.length
      else c :: replaceFirstAux pat repl rest

def replaceFirst (s pat repl : String) : String :=
  if pat = "" then s
  else String.mk (replaceFirstAux pat.data repl.data s.data)

/-- The image-URL cleanup in `tryGoogleBooks` (lines 136-138); throws when
the picked image link is not a string. -/
def fixImageUrl (v : JVal) : Except Unit String :=
  match v with
  | .str s => .ok (replaceFirst (replaceFirst s "http://" "https://") "&edge=curl" "")
  | _ => .error ()

/-- The search-then-cover first stage of `tryOpenLibrary` (fetch-covers.js
lines 95-110): look up by ISBN, follow a `cover_i` hit, accept the image
only above the size threshold. -/
def tryOpenLibraryStep1 (env : Net) (docs : JVal) : M (Option CoverResult) :=
  if truthy docs then do
    let d0 ← liftE (jIndex docs 0)
    if truthy d0 then do
      let coverId ← liftE (jGet d0 "cover_i")
      if truthy coverId then do
        let imageData ← netFetch env (olCoverIdUrl (jToStr coverId))
        if imageData.length > 1000 then do
          let an ← liftE (jGet d0 "author_name")
          let a0 ← liftE (jIndexQ an 0)
          pure (some { buffer := imageData, author := jOrNull a0 })
        else pure none
      else pure none
    else pure none
  else pure none

/-- Body of `tryOpenLibrary` (fetch-covers.js lines 93-117), inside the
try block: the search stage, then the direct by-ISBN cover endpoint. -/
def tryOpenLibraryBody (env : Net) (isbn : String) : M (Option CoverResult) := do
  let searchData ← fetchJson env (olSearchIsbnUrl isbn)
  let docs ← liftE (jGet searchData "docs")
  let step1 ← tryOpenLibraryStep1 env docs
  match step1 with
  | some r => pure (some r)
  | none => do
      let directData ← netFetch env (olCoverIsbnUrl isbn)
      if directData.length > 1000 then
        pure (some { buffer := directData, author := JVal.null })
      else pure none

/-- `tryOpenLibrary` (fetch-covers.js lines 92-122): any throw inside the
body is swallowed and the function returns `null`. -/
def tryOpenLibrary (env : Net) (isbn : String) : M (Option CoverResult) :=
  tryCatch (tryOpenLibraryBody env isbn) none

/-- Body of `tryGoogleBooks` (fetch-covers.js lines 126-148). -/
def tryGoogleBooksBody (env : Net) (isbn : String) : M (Option CoverResult) := do
  let searchData ← fetchJson env (gbSearchUrl isbn)
  let items ← liftE (jGet searchData "items")
  if truthy items then do
    let item ← liftE (jIndex items 0)
    if truthy item then do
      let vi ← liftE (jGet item "volumeInfo")
      let imageLinks ← liftE (jGetQ vi "imageLinks")
      if truthy imageLinks then do
        let lrg ← liftE (jGet imageLinks "large")
        let med ← liftE (jGet imageLinks "medium")
        let thm ← liftE (jGet imageLinks "thumbnail")
        let sml ← liftE (jGet imageLinks "smallThumbnail")
        let imageUrl ← liftE (fixImageUrl (jOr (jOr (jOr lrg med) thm) sml))
        let imageData ← netFetch env imageUrl
        if imageData.length > 2000 then do
          let vi2 ← liftE (jGet item "volumeInfo")
          let authors ← liftE (jGetQ vi2 "authors")
          let a0 ← liftE (jIndexQ authors 0)
          pure (some { buffer := imageData, author := jOrNull a0 })
        else pure none
      else pure none
    else pure none
  else pure none

/-- `tryGoogleBooks` (fetch-covers.js lines 125-153). -/
def tryGoogleBooks (env : Net) (isbn : String) : M (Option CoverResult) :=
  tryCatch (tryGoogleBooksBody env isbn) none

/-- The `searchData.docs?.find(doc => doc.cover_i)` of the title search:
`undefined` when `docs` is nullish, iteration over arrays (the callback's
property access may throw), TypeError otherwise. -/
def jFindCoverDoc : List JVal → Except Unit JVal
  | [] => .ok .undefined
  | x :: xs => do
      let ci ← jGet x "cover_i"
      if truthy ci then .ok x else jFindCoverDoc xs

def findDocWithCover (docs : JVal) : Except Unit JVal :=
  match docs with
  | .undefined => .ok .undefined
  | .null => .ok .undefined
  | .arr xs => jFindCoverDoc xs
  | _ => .error ()

/-- Body of `tryOpenLibraryTitleSearch` (fetch-covers.js lines 157-181). -/
def tryOpenLibraryTitleSearchBody (env : Net) (title : JVal) : M (Option CoverResult) := do
  let searchTitle ← liftE (cleanTitle title)
  let searchData ← fetchJson env (olTitleUrl searchTitle 5)
  let docs ← liftE (jGet searchData "docs")
  let withCover ← liftE (findDocWithCover docs)
  if truthy withCover then do
    let ci ← liftE (jGet withCover "cover_i")
    if truthy ci then do
      let imageData ← netFetch env (olCoverIdUrl (jToStr ci))
      if imageData.length > 1000 then do
        let an ← liftE (jGet withCover "author_name")
        let a0 ← liftE (jIndexQ an 0)
        pure (some { buffer := imageData, author := jOrNull a0 })
      else pure none
    else pure none
  else pure none

/-- `tryOpenLibraryTitleSearch` (fetch-covers.js lines 156-186). -/
def tryOpenLibraryTitleSearch (env : Net) (title : JVal) : M (Option CoverResult) :=
  tryCatch (tryOpenLibraryTitleSearchBody env title) none

/-- One Google-Books author attempt of `tryGetAuthorOnly` (lines 191-202),
wrapped in its own try so a failure moves on to the next ISBN. -/
def authorIsbnAttempt (env : Net) (isbn : String) : M (Option JVal) :=
  tryCatch
    (do
      let searchData ← fetchJson env (gbSearchUrl isbn)
      let items ← liftE (jGet searchData "items")
      if truthy items then do
        let i0 ← liftE (jIndex items 0)
        if truthy i0 then do
          let vi ← liftE (jGetQ i0 "volumeInfo")
          let authors ← liftE (jGetQ vi "authors")
          let author ← liftE (jIndexQ authors 0)
          if truthy author then pure (some author) else pure none
        else pure none
      else pure none)
    none

def authorIsbnLoop (env : Net) : List String → M (Option JVal)
  | [] => pure none
  | isbn :: rest => do
      let r ← authorIsbnAttempt env isbn
      match r with
      | some v => pure (some v)
      | none => authorIsbnLoop env rest

/-- The title-search phase of `tryGetAuthorOnly` (lines 205-214), in its
own try block; `none` means "fall through to the final `return null`". -/
def authorTitleAttempt (env : Net) (title : JVal) : M (Option JVal) :=
  tryCatch
    (do
      let searchTitle ← liftE (cleanTitle title)
      let searchData ← fetchJson env (olTitleUrl searchTitle 1)
      let docs ← liftE (jGet searchData "docs")
      if truthy docs then do
        let d0 ← liftE (jIndex docs 0)
        if truthy d0 then do
          let an ← liftE (jGet d0 "author_name")
          let a0 ← liftE (jIndexQ an 0)
          pure (some (jOrNull a0))
        else pure none
      else pure none)
    none

/-- `tryGetAuthorOnly` (fetch-covers.js lines 189-217). -/
def tryGetAuthorOnly (env : Net) (isbns : List String) (title : JVal) : M JVal := do
  let a ← authorIsbnLoop env isbns
  match a with
  | some v => pure v
  | none => do
      let r ← authorTitleAttempt env title
      match r with
      | some v => pure v
      | none => pure JVal.null

/-! ### fetch-covers.js: loading the book list -/

/-- A loaded book (fetch-covers.js lines 40-44). -/
structure Book where
  id : JVal
  title : JVal
  isbns : List String
deriving Repr

/-- The inner ISBN collection of `loadBooks` (lines 33-38): every edition
with a truthy `isbn` contributes its cleaned value, with no
deduplication. -/
def collectIsbns : List JVal → Except Unit (List String)
  | [] => .ok []
  | e :: es => do
      let i ← jGet e "isbn"
      let rest ← collectIsbns es
      if truthy i then .ok (cleanISBN i :: rest) else .ok rest

/-- The per-book body of `loadBooks` (lines 31-47): a book is kept only if
it has a truthy title and editions and at least one collected ISBN; its
id is `book.bookId || book.bookid`. -/
def loadOneBook (b : JVal) : Except Unit (List Book) := do
  let t ← jGet b "title"
  let eds ← jGet b "editions"
  if truthy t && truthy eds then do
    let edl ← jIterate eds
    let isbns ← collectIsbns edl
    if isbns.length > 0 then do
      let i1 ← jGet b "bookId"
      let bid ← if truthy i1 then pure i1 else jGet b "bookid"
      pure [({ id := bid, title := t, isbns := isbns } : Book)]
    else pure []
  else pure []

def loadCatBooks : List JVal → Except Unit (List Book)
  | [] => .ok []
  | b :: bs => do
      let here ← loadOneBook b
      let rest ← loadCatBooks bs
      pure (here ++ rest)

/-- One category of the loop of `loadBooks` (lines 29-49): only the
finished and saved buckets contribute books. -/
def loadOneCat (c : JVal) : Except Unit (List Book) := do
  let t ← jGet c "type"
  if jStrEq t "myfinishedbooks" || jStrEq t "mysavedbooks" then do
    let bsv ← jGet c "books"
    let bl ← jIterate (jOr bsv (.arr []))
    loadCatBooks bl
  else pure []

def loadBooksCats : List JVal → Except Unit (List Book)
  | [] => .ok []
  | c :: cs => do
      let here ← loadOneCat c
      let rest ← loadBooksCats cs
      pure (here ++ rest)

/-- The final id-deduplication of `loadBooks` (lines 51-57): keep the
first book for each id (`Set` membership modelled by `jEq`). -/
def dedupById (seen : List JVal) : List Book → List Book
  | [] => []
  | b :: bs =>
      if seen.any (jEq b.id) then dedupById seen bs
      else b :: dedupById (b.id :: seen) bs

/-- `loadBooks` (fetch-covers.js lines 25-58), applied to the parsed
export value. -/
def loadBooks (data : JVal) : Except Unit (List Book) := do
  let cats ← jIterate data
  let books ← loadBooksCats cats
  pure (dedupById [] books)

/-! ### fetch-covers.js: the main resolution loop -/

/-- An entry of the persisted covers map (`path` null = no cover
found). -/
structure CoverEntry where
  path : Option String
  author : JVal
deriving Repr

/-- Set a key in a JS object modelled as an insertion-ordered association
list: overwrite in place if present, append if fresh. -/
def assocSet (m : List (String × α)) (k : String) (v : α) : List (String × α) :=
  if m.any fun p => p.1 = k then
    m.map fun p => if p.1 = k then (k, v) else p
  else m ++ [(k, v)]

/-- First-match association lookup (JS object read / `existsSync` on the
modelled file system). -/
def alookup (k : String) : List (String × α) → Option α
  | [] => none
  | (k2, v) :: rest => if k2 = k then some v else alookup k rest

/-- The mutable state of `main`: the covers directory (path to bytes) and
the in-memory covers map being built. -/
structure RunState where
  fs : List (String × Buf)
  coversMap : List (String × CoverEntry)

/-- `path.join(COVERS_DIR, book.id + ".jpg")` and the identical template
string used for map entries (lines 244 and 249): object keys stringify
the id. -/
def coverPathOf (b : Book) : String := "covers/" ++ jToStr b.id ++ ".jpg"

def keyOf (b : Book) : String := jToStr b.id

/-- The ISBN loop with early exit used for both sources (fetch-covers.js
lines 267-284): try each ISBN in order, first truthy result wins. -/
def tryFirst (f : String → M (Option CoverResult)) : List String → M (Option CoverResult)
  | [] => pure none
  | isbn :: rest => do
      let r ← f isbn
      match r with
      | some res => pure (some res)
      | none => tryFirst f rest

/-- The source cascade of the main loop (fetch-covers.js lines 264-292):
each ISBN against Open Library, then each ISBN against Google Books, then
the title search; first truthy result wins. -/
def cascade (env : Net) (b : Book) : M (Option CoverResult) := do
  let r1 ← tryFirst (tryOpenLibrary env) b.isbns
  match r1 with
  | some r => pure (some r)
  | none => do
      let r2 ← tryFirst (tryGoogleBooks env) b.isbns
      match r2 with
      | some r => pure (some r)
      | none => tryOpenLibraryTitleSearch env b.title

/-- One iteration of the main loop (fetch-covers.js lines 239-315) for a
single book. -/
def processBook (env : Net) (existing : List (String × CoverEntry))
    (st : RunState) (b : Book) : M RunState :=
  let coverPath := coverPathOf b
  let existingEntry := alookup (keyOf b) existing
  if (alookup coverPath st.fs).isSome then
    let e2 : CoverEntry :=
      { path := some coverPath,
        author := jOrNull (match existingEntry with
          | some e => e.author
          | none => JVal.undefined) }
    pure { st with coversMap := assocSet st.coversMap (keyOf b) e2 }
  else if (match existingEntry with
      | some e => e.path = none && truthy e.author
      | none => false) then
    let e2 : CoverEntry := existingEntry.getD { path := none, author := JVal.null }
    pure { st with coversMap := assocSet st.coversMap (keyOf b) e2 }
  else do
    let result ← cascade env b
    match result with
    | some r =>
        let e2 : CoverEntry := { path := some coverPath, author := r.author }
        pure { fs := assocSet st.fs coverPath r.buffer,
               coversMap := assocSet st.coversMap (keyOf b) e2 }
    | none => do
        let author ← tryGetAuthorOnly env b.isbns b.title
        let e2 : CoverEntry := { path := none, author := author }
        pure { st with coversMap := assocSet st.coversMap (keyOf b) e2 }

/-- The sequential book loop of `main`. -/
def runLoop (env : Net) (existing : List (String × CoverEntry)) :
    List Book → RunState → M RunState
  | [], st => pure st
  | b :: bs, st => do
      let st2 ← processBook env existing st b
      runLoop env existing bs st2

/-- `main` (fetch-covers.js lines 220-327): load and parse the export
(fatal on failure), load the deduplicated book list (fatal when the
export shape is not iterable where iterated), then resolve every book
starting from an empty in-memory map; `existing` is the previously
persisted covers map and `fs0` the covers directory on disk. -/
def mainRun (env : Net) (existing : List (String × CoverEntry))
    (fs0 : List (String × Buf)) : M RunState := do
  let data ← liftE env.exportData
  let books ← liftE (loadBooks data)
  runLoop env existing books { fs := fs0, coversMap := [] }

/-! ### Example values used in concrete theorems -/

/-- An audioBook-tagged edition object with the given raw ISBN. -/
def audioEd (i : String) : JVal := .obj [("type", .str "audioBook"), ("isbn", .str i)]

/-- An eBook-tagged edition object with the given raw ISBN. -/
def ebookEd (i : String) : JVal := .obj [("type", .str "eBook"), ("isbn", .str i)]

/-- Authors stored by the pipeline are always either truthy or the JS
`null` (they are produced by `x || null` or a truthiness guard). -/
def authorNormed (v : JVal) : Prop := truthy v = true ∨ v = JVal.null

/-- A date environment knowing two concrete ISO dates. -/
def sampleDateEnv : DateEnv :=
  { parseDate := fun v => match v with
      | .str "2023-01-01" => some 1672531200000
      | .str "2023-01-02" => some 1672617600000
      | _ => none,
    msToYear := fun _ => 2023 }

/-- A finished-bucket entry carrying only the lowercase `bookid`
spelling. -/
def c4finBook : JVal :=
  .obj [("title", .str "T"), ("bookid", .str "42"), ("finishedDate", .str "2023-01-01")]

def c4data : JVal :=
  .arr [.obj [("type", .str "myfinishedbooks"), ("books", .arr [c4finBook])]]

/-- A finished-bucket entry carrying only `bookId`. -/
def c4dataFinB : JVal :=
  .arr [.obj [("type", .str "myfinishedbooks"),
    ("books", .arr [.obj [("title", .str "T"), ("bookId", .str "43"),
      ("finishedDate", .str "2023-01-01")]])]]

/-- Saved-bucket entries, one with each identifier spelling. -/
def c4dataSaved : JVal :=
  .arr [.obj [("type", .str "mysavedbooks"),
    ("books", .arr [
      .obj [("title", .str "S"), ("bookid", .str "44"), ("date", .str "2023-01-01")],
      .obj [("title", .str "S2"), ("bookId", .str "45"), ("date", .str "2023-01-01")]])]]

/-- Export data for `loadBooks` with only `bookId`. -/
def c4LbA : JVal :=
  .arr [.obj [("type", .str "myfinishedbooks"),
    ("books", .arr [.obj [("title", .str "T"), ("bookId", .str "42"),
      ("editions", .arr [.obj [("isbn", .str "1")]])]])]]

/-- Export data for `loadBooks` with only `bookid`. -/
def c4LbB : JVal :=
  .arr [.obj [("type", .str "myfinishedbooks"),
    ("books", .arr [.obj [("title", .str "T"), ("bookid", .str "42"),
      ("editions", .arr [.obj [("isbn", .str "1")]])]])]]

/-- Witness date environment for the sorting claim: one known ISO
date. -/
def c7denv : DateEnv :=
  { parseDate := fun v => match v with
      | .str s => if s = "2023-01-01" then some 1 else none
      | _ => none,
    msToYear := fun _ => 2023 }

/-- Witness data for the sorting claim: two finished entries and one
saved entry, all with the known date. -/
def c7data : JVal :=
  .arr [.obj [("type", .str "myfinishedbooks"),
          ("books", .arr [
            .obj [("title", .str "T1"), ("bookId", .str "1"),
                  ("finishedDate", .str "2023-01-01")],
            .obj [("title", .str "T2"), ("bookId", .str "2"),
                  ("finishedDate", .str "2023-01-01")]])],
        .obj [("type", .str "mysavedbooks"),
          ("books", .arr [
            .obj [("title", .str "S1"), ("bookId", .str "3"),
                  ("date", .str "2023-01-01")]])]]

/-- The normalizer output on `c7data`. -/
def c7state : PageState :=
  { finishedBooks :=
      [{ title := .str "T1", bookId := .str "1", isbns := [],
         finishedDate := .str "2023-01-01", year := some 2023 },
       { title := .str "T2", bookId := .str "2", isbns := [],
         finishedDate := .str "2023-01-01", year := some 2023 }],
    savedBooks :=
      [{ title := .str "S1", bookId := .str "3", isbns := [],
         date := .str "2023-01-01", year := some 2023 }] }

/-- Partial-correctness predicate on pipeline computations: whenever the
computation returns without throwing, its value satisfies `P`. -/
def MPost {α : Type} (m : M α) (P : α → Prop) : Prop :=
  ∀ l a l2, m l = (.ok a, l2) → P a

/-- Totality predicate: the computation never throws. -/
def MOk {α : Type} (m : M α) : Prop :=
  ∀ l, ∃ a l2, m l = (.ok a, l2)

/-- The property checked of a cover attempt result: an accepted cover
exceeds the size threshold and carries a normalized author. -/
def sizeNormedP (threshold : Nat) : Option CoverResult → Prop :=
  fun r => ∀ res, r = some res → threshold < res.buffer.length ∧ authorNormed res.author

/-- An environment whose every fetch succeeds with a 1001-byte body and
whose JSON parse yields an empty object (so Open Library succeeds through
the direct-cover endpoint). -/
def c8envOL : Net :=
  { fetchUrl := fun _ => .ok (List.replicate 1001 0),
    parseJson := fun _ => .ok (.obj []), exportData := .error () }

/-- An environment serving a Google Books search hit with a thumbnail
link and a 2001-byte image at that link. -/
def c8envGB : Net :=
  { fetchUrl := fun u => if u = "https://img" then .ok (List.replicate 2001 0) else .ok [],
    parseJson := fun _ => .ok (.obj [("items", .arr [.obj [("volumeInfo",
      .obj [("imageLinks", .obj [("thumbnail", .str "http://img")])])]])]),
    exportData := .error () }

/-- An environment serving an Open Library title-search hit with cover id
7 and a 1001-byte image at the cover-id endpoint. -/
def c8envT : Net :=
  { fetchUrl := fun u => if u = olCoverIdUrl "7" then .ok (List.replicate 1001 0) else .ok [],
    parseJson := fun _ => .ok (.obj [("docs", .arr [.obj [("cover_i", .num 7)]])]),
    exportData := .error () }

/-- An attempt that always yields no result. -/
def noResultAttempt : String → M (Option CoverResult) := fun _ => pure none

/-- An environment whose export file parses successfully to the number 5
(valid JSON, but not iterable) and whose network always fails. -/
def c9env : Net :=
  { fetchUrl := fun _ => .error (), parseJson := fun _ => .error (),
    exportData := .ok (.num 5) }

/-- An environment where every network call fails. -/
def failNet : Net :=
  { fetchUrl := fun _ => .error (), parseJson := fun _ => .error (),
    exportData := .error () }

/-- A book whose title is not a string (so the title-search fallbacks
throw internally and are caught without a network call). -/
def c1book : Book := { id := .str "1", title := .num 7, isbns := ["11"] }

/-- Export data with one book whose editions carry no ISBN. -/
def c2data : JVal :=
  .arr [.obj [("type", .str "myfinishedbooks"),
    ("books", .arr [.obj [("title", .str "T"), ("bookId", .str "1"),
      ("editions", .arr [.obj []])]])]]

/-- An environment whose export parses to `c2data`. -/
def c2env : Net :=
  { fetchUrl := fun _ => .error (), parseJson := fun _ => .error (),
    exportData := .ok c2data }

/-- Postcondition of one main-loop iteration from state `st` on book
`b`: exactly one entry keyed by the book's id is set, its author is
normalized, and either a cover path is recorded with the cover file
present (file system otherwise untouched), or the entry has a null path
and the file system is unchanged and has no cover file for this book. -/
def bookStepP (st : RunState) (b : Book) (st2 : RunState) : Prop :=
  ∃ e, st2.coversMap = assocSet st.coversMap (keyOf b) e ∧ authorNormed e.author ∧
    ((e.path = some (coverPathOf b) ∧ (alookup (coverPathOf b) st2.fs).isSome = true ∧
      ∀ p, p ≠ coverPathOf b → alookup p st2.fs = alookup p st.fs) ∨
     (e.path = none ∧ st2.fs = st.fs ∧ alookup (coverPathOf b) st.fs = none))

/-- The map entry written by the SKIP_CACHED branch (fetch-covers.js
line 249). -/
def skip1Entry (existing : List (String × CoverEntry)) (b : Book) : CoverEntry :=
  { path := some (coverPathOf b),
    author := jOrNull (match alookup (keyOf b) existing with
      | some e => e.author
      | none => JVal.undefined) }

/-- The state after a first run of the loop on `c1book` under `c8envOL`
(cover found through the direct-by-ISBN endpoint). -/
def c1st1 : RunState :=
  { fs := [("covers/1.jpg", List.replicate 1001 0)],
    coversMap := [("1", { path := some "covers/1.jpg", author := JVal.null })] }

/-- The single book loaded from `c4LbA`. -/
def bk42 : Book := { id := .str "42", title := .str "T", isbns := ["1"] }

/-- The network log of resolving `bk42` against a failing network. -/
def bk42log : List String :=
  [olSearchIsbnUrl "1", gbSearchUrl "1", olTitleUrl "T" 5, gbSearchUrl "1", olTitleUrl "T" 1]

/-- The classification of one edition, as read by the extraction passes:
its tag flags (`format === tag || type === tag`) and its cleaned ISBN
when the raw `isbn` is truthy. -/
structure EditionView where
  isEbook : Bool
  isAudio : Bool
  isbn : Option String
deriving Repr, DecidableEq

/-- Classify one edition; succeeds when the `format`, `type` and `isbn`
property accesses do not throw (the edition is not null/undefined). -/
def viewOf (e : JVal) : Except Unit EditionView := do
  let f ← jGet e "format"
  let t ← jGet e "type"
  let i ← jGet e "isbn"
  pure { isEbook := jStrEq f "eBook" || jStrEq t "eBook",
         isAudio := jStrEq f "audioBook" || jStrEq t "audioBook",
         isbn := if truthy i then some (cleanISBN i) else none }

def viewsOf : List JVal → Except Unit (List EditionView)
  | [] => .ok []
  | e :: es => do
      let v ← viewOf e
      let vs ← viewsOf es
      pure (v :: vs)

/-- Spec-side helper, following the claim's words: append each value
not already collected, first-seen order. -/
def dedupAppend (acc : List String) (xs : List String) : List String :=
  xs.foldl (fun a x => if a.contains x then a else a ++ [x]) acc

/-- Spec-side description of the claimed extraction order, to be
compared with `extractAllISBNs`: the eBook-tagged editions' ISBNs first
(in input order, duplicates kept), then the audioBook-tagged editions'
values not already collected, then any other ISBN-bearing edition's
value not already collected. -/
def specExtractIsbns (vs : List EditionView) : List String :=
  let a := (vs.filter fun v => v.isEbook).filterMap fun v => v.isbn
  let b := dedupAppend a ((vs.filter fun v => v.isAudio).filterMap fun v => v.isbn)
  dedupAppend b (vs.filterMap fun v => v.isbn)

/-- An edition object carrying only an ISBN (no format/type tag). -/
def otherEd (i : String) : JVal := .obj [("isbn", .str i)]

/-- The classification of `[audioEd "1111111111", ebookEd "2222222222"]`. -/
def c6views : List EditionView :=
  [{ isEbook := false, isAudio := true, isbn := some "1111111111" },
   { isEbook := true, isAudio := false, isbn := some "2222222222" }]

/-! ### Basic lemmas -/

theorem M_bind_run {α β : Type} (x : M α) (f : α → M β) (l : List String) :
    (x >>= f) l = match x l with
      | (.ok a, l2) => f a l2
      | (.error e, l2) => (.error e, l2) := rfl

theorem M_pure_run {α : Type} (a : α) (l : List String) :
    (pure a : M α) l = (.ok a, l) := rfl

theorem liftE_run {α : Type} (e : Except Unit α) (l : List String) :
    liftE e l = (e, l) := rfl

theorem netFetch_run (env : Net) (url : String) (l : List String) :
    netFetch env url l = (env.fetchUrl url, l ++ [url]) := rfl

theorem tryCatch_run {α : Type} (body : M α) (fb : α) (l : List String) :
    tryCatch body fb l = match body l with
      | (.ok a, l2) => (.ok a, l2)
      | (.error _, l2) => (.ok fb, l2) := rfl

theorem jOrNull_normed (v : JVal) : authorNormed (jOrNull v) := by
  unfold jOrNull authorNormed
  by_cases h : truthy v = true
  · simp [h]
  · simp [h]

theorem authorNormed_null : authorNormed JVal.null := Or.inr rfl

theorem jOrNull_of_normed (v : JVal) (h : authorNormed v) : jOrNull v = v := by
  cases h with
  | inl h => simp [jOrNull, h]
  | inr h => subst h; rfl

/-! ### Claim C5: ISBN normalization output alphabet -/

/-- C5 counterexample: the claim says the normalized form contains only
digits and the uppercase check character `X`, a lowercase input `x` being
uppercased.  On the code, `cleanISBN` keeps a lowercase `x` unchanged:
`"0-9752298-0-x"` normalizes to `"097522980x"`, which contains a
character that is neither a digit nor `X`. -/
theorem C5_counterexample :
    cleanISBN (JVal.str "0-9752298-0-x") = "097522980x" ∧
    ¬ (∀ c ∈ (cleanISBN (JVal.str "0-9752298-0-x")).data, c.isDigit = true ∨ c = 'X') := by
  constructor
  · rfl
  · intro h
    have := h 'x' (by decide)
    revert this
    decide

/-- C5 (amended): normalization keeps exactly the decimal digits and the
check character in either case (`X` or `x`), deleting every other
character case-insensitively; retained characters keep their original
case, the output being a sublist of the stringified input. -/
theorem C5_amended (v : JVal) :
    (∀ c ∈ (cleanISBN v).data, c.isDigit = true ∨ c = 'X' ∨ c = 'x') ∧
    (cleanISBN v).data.Sublist (jToStr v).data := by
  constructor
  · intro c hc
    unfold cleanISBN at hc
    have hmem := List.mem_filter.mp hc
    have := hmem.2
    simp only [Bool.or_eq_true, beq_iff_eq] at this
    tauto
  · exact List.filter_sublist _

/-! ### Claim C3: deduplication of extracted ISBNs -/

/-- C3 counterexample: two eBook-tagged editions with the same normalized
ISBN contribute it twice (the eBook pass has no duplicate check), and the
pipeline's `loadBooks` never deduplicates ISBNs at all. -/
theorem C3_counterexample :
    extractAllISBNs (.arr [ebookEd "11", ebookEd "11"]) = .ok ["11", "11"] ∧
    ¬ (["11", "11"] : List String).Nodup ∧
    loadBooks (.arr [.obj [("type", .str "myfinishedbooks"),
      ("books", .arr [.obj [("title", .str "T"), ("bookId", .str "1"),
        ("editions", .arr [.obj [("isbn", .str "11")], .obj [("isbn", .str "11")]])]])]]) =
      .ok [{ id := .str "1", title := .str "T", isbns := ["11", "11"] }] := by
  refine ⟨rfl, by decide, rfl⟩

theorem contains_false_not_mem {acc : List String} {x : String}
    (h : acc.contains x = false) : x ∉ acc := by
  intro hm
  have := List.elem_iff.mpr hm
  rw [List.contains] at h
  rw [this] at h
  exact Bool.true_eq_false.mp h

theorem nodup_append_singleton {acc : List String} {x : String}
    (h : acc.Nodup) (hx : x ∉ acc) : (acc ++ [x]).Nodup := by
  refine List.Nodup.append h (List.nodup_singleton x) ?_
  intro a ha hb
  rw [List.mem_singleton] at hb
  subst hb
  exact hx ha

theorem audioPass_nodup :
    ∀ (es : List JVal) (acc res : List String),
      acc.Nodup → audioPass es acc = .ok res → res.Nodup := by
  intro es
  induction es with
  | nil =>
      intro acc res h hp
      simp only [audioPass, Except.ok.injEq] at hp
      subst hp
      exact h
  | cons e es ih =>
      intro acc res h hp
      unfold audioPass at hp
      cases ht : editionHasTag e "audioBook" with
      | error u => rw [ht] at hp; exact absurd hp (by simp [Bind.bind, Except.bind])
      | ok isAb =>
          rw [ht] at hp
          dsimp only [Bind.bind, Except.bind] at hp
          cases isAb with
          | false => exact ih acc res h hp
          | true =>
              simp only [if_true] at hp
              cases hi : jGet e "isbn" with
              | error u => rw [hi] at hp; exact absurd hp (by simp)
              | ok i =>
                  rw [hi] at hp
                  dsimp only at hp
                  by_cases htr : truthy i = true
                  · rw [htr] at hp
                    simp only [if_true] at hp
                    by_cases hc : acc.contains (cleanISBN i) = true
                    · rw [hc] at hp
                      simp only [if_true] at hp
                      exact ih acc res h hp
                    · rw [Bool.not_eq_true] at hc
                      rw [hc] at hp
                      simp only [Bool.false_eq_true, if_false] at hp
                      exact ih _ res
                        (nodup_append_singleton h (contains_false_not_mem hc)) hp
                  · rw [Bool.not_eq_true] at htr
                    rw [htr] at hp
                    simp only [Bool.false_eq_true, if_false] at hp
                    exact ih acc res h hp

theorem otherPass_nodup :
    ∀ (es : List JVal) (acc res : List String),
      acc.Nodup → otherPass es acc = .ok res → res.Nodup := by
  intro es
  induction es with
  | nil =>
      intro acc res h hp
      simp only [otherPass, Except.ok.injEq] at hp
      subst hp
      exact h
  | cons e es ih =>
      intro acc res h hp
      unfold otherPass at hp
      simp only [Bind.bind, Except.bind] at hp
      cases hi : jGet e "isbn" with
      | error u => rw [hi] at hp; exact absurd hp (by simp)
      | ok i =>
          rw [hi] at hp
          dsimp only at hp
          by_cases htr : truthy i = true
          · rw [htr] at hp
            simp only [if_true] at hp
            by_cases hc : acc.contains (cleanISBN i) = true
            · rw [hc] at hp
              simp only [if_true] at hp
              exact ih acc res h hp
            · rw [Bool.not_eq_true] at hc
              rw [hc] at hp
              simp only [Bool.false_eq_true, if_false] at hp
              exact ih _ res (nodup_append_singleton h (contains_false_not_mem hc)) hp
          · rw [Bool.not_eq_true] at htr
            rw [htr] at hp
            simp only [Bool.false_eq_true, if_false] at hp
            exact ih acc res h hp

/-- C3 (amended): deduplication holds in the audioBook and other passes —
each skips values already collected — so whenever the eBook pass
contributes nothing the extracted list has no duplicates, and equal
normalized audioBook ISBNs are collected once in first-seen order; but
the eBook pass performs no duplicate check (see the counterexample), and
the pipeline's own `loadBooks` collection never deduplicates. -/
theorem C3_amended :
    (∀ (es : List JVal) (acc res : List String),
      acc.Nodup → audioPass es acc = .ok res → res.Nodup) ∧
    (∀ (es : List JVal) (acc res : List String),
      acc.Nodup → otherPass es acc = .ok res → res.Nodup) ∧
    (∀ (es : List JVal) (res : List String),
      ebookPass es [] = .ok [] → extractAllISBNs (.arr es) = .ok res → res.Nodup) ∧
    extractAllISBNs (.arr [audioEd "1-1", audioEd "11"]) = .ok ["11"] := by
  refine ⟨audioPass_nodup, otherPass_nodup, ?_, rfl⟩
  intro es res hE h
  unfold extractAllISBNs at h
  dsimp only [Bind.bind, Except.bind] at h
  rw [hE] at h
  dsimp only at h
  cases ha : audioPass es [] with
  | error u => rw [ha] at h; exact absurd h (by simp)
  | ok b =>
      rw [ha] at h
      dsimp only at h
      exact otherPass_nodup es b res (audioPass_nodup es [] b List.nodup_nil ha) h

/-- C3 witness: instantiating the amended dedup statements at concrete
inputs. -/
theorem C3_witness :
    ([] : List String).Nodup ∧
    audioPass [audioEd "1-1", audioEd "11"] [] = .ok ["11"] ∧
    (["11"] : List String).Nodup ∧
    ebookPass [audioEd "1-1"] [] = .ok [] ∧
    extractAllISBNs (.arr [audioEd "1-1"]) = .ok ["11"] := by
  refine ⟨List.nodup_nil, rfl, ?_, rfl, rfl⟩
  exact audioPass_nodup [audioEd "1-1", audioEd "11"] [] ["11"] List.nodup_nil rfl

/-! ### Claim C6: extraction ordering -/

/-- C6 counterexample: at the claim's literal input the extracted list is
`[""]`, not `["B", "A"]` — `cleanISBN` deletes the letters `A` and `B`
(they are not digits or the check character), both editions normalize to
the empty string, and the audioBook pass then skips the duplicate. -/
theorem C6_counterexample :
    extractAllISBNs (.arr [audioEd "A", ebookEd "B"]) = .ok [""] ∧
    (Except.ok [""] : Except Unit (List String)) ≠ .ok ["B", "A"] := by
  refine ⟨rfl, ?_⟩
  intro h
  have := Except.ok.inj h
  exact absurd this (by decide)

theorem editionHasTag_of_views {e : JVal} {f t : JVal}
    (hf : jGet e "format" = .ok f) (ht : jGet e "type" = .ok t)
    (tag : String) :
    editionHasTag e tag = .ok (jStrEq f tag || jStrEq t tag) := by
  unfold editionHasTag
  dsimp only [Bind.bind, Except.bind]
  rw [hf]
  dsimp only
  by_cases hc : jStrEq f tag = true
  · simp [hc, pure, Except.pure]
  · rw [Bool.not_eq_true] at hc
    simp [hc, ht, Bind.bind, Except.bind, pure, Except.pure]

theorem viewOf_parts {e : JVal} {v : EditionView} (h : viewOf e = .ok v) :
    ∃ f t i, jGet e "format" = .ok f ∧ jGet e "type" = .ok t ∧
      jGet e "isbn" = .ok i ∧
      v = { isEbook := jStrEq f "eBook" || jStrEq t "eBook",
            isAudio := jStrEq f "audioBook" || jStrEq t "audioBook",
            isbn := if truthy i then some (cleanISBN i) else none } := by
  unfold viewOf at h
  dsimp only [Bind.bind, Except.bind] at h
  cases hf : jGet e "format" with
  | error u => rw [hf] at h; exact absurd h (by simp)
  | ok f =>
      rw [hf] at h
      dsimp only at h
      cases ht : jGet e "type" with
      | error u => rw [ht] at h; exact absurd h (by simp)
      | ok t =>
          rw [ht] at h
          dsimp only at h
          cases hi : jGet e "isbn" with
          | error u => rw [hi] at h; exact absurd h (by simp)
          | ok i =>
              rw [hi] at h
              dsimp only [pure, Except.pure] at h
              exact ⟨f, t, i, rfl, rfl, rfl, (Except.ok.inj h).symm⟩

theorem viewsOf_cons {e : JVal} {es : List JVal} {vs : List EditionView}
    (h : viewsOf (e :: es) = .ok vs) :
    ∃ v vs2, viewOf e = .ok v ∧ viewsOf es = .ok vs2 ∧ vs = v :: vs2 := by
  unfold viewsOf at h
  dsimp only [Bind.bind, Except.bind] at h
  cases hv : viewOf e with
  | error u => rw [hv] at h; exact absurd h (by simp)
  | ok v =>
      rw [hv] at h
      dsimp only at h
      cases hr : viewsOf es with
      | error u => rw [hr] at h; exact absurd h (by simp)
      | ok vs2 =>
          rw [hr] at h
          dsimp only [pure, Except.pure] at h
          exact ⟨v, vs2, rfl, rfl, (Except.ok.inj h).symm⟩

theorem dedupAppend_cons (acc : List String) (x : String) (xs : List String) :
    dedupAppend acc (x :: xs) =
      dedupAppend (if acc.contains x then acc else acc ++ [x]) xs := rfl

theorem ebookPass_views :
    ∀ (es : List JVal) (vs : List EditionView) (acc : List String),
      viewsOf es = .ok vs →
      ebookPass es acc =
        .ok (acc ++ ((vs.filter fun v => v.isEbook).filterMap fun v => v.isbn)) := by
  intro es
  induction es with
  | nil =>
      intro vs acc h
      simp only [viewsOf, Except.ok.injEq] at h
      subst h
      simp [ebookPass]
  | cons e es ih =>
      intro vs acc h
      obtain ⟨v, vs2, hv, hr, hvs⟩ := viewsOf_cons h
      subst hvs
      obtain ⟨f, t, i, hf, ht, hi, hveq⟩ := viewOf_parts hv
      subst hveq
      unfold ebookPass
      dsimp only [Bind.bind, Except.bind]
      rw [editionHasTag_of_views hf ht "eBook"]
      dsimp only
      by_cases hEb : (jStrEq f "eBook" || jStrEq t "eBook") = true
      · rw [hEb]
        simp only [if_true]
        rw [hi]
        dsimp only
        by_cases htr : truthy i = true
        · rw [htr]
          simp only [if_true]
          rw [ih vs2 (acc ++ [cleanISBN i]) hr]
          simp [List.filter_cons, hEb, htr, List.filterMap_cons, List.append_assoc]
        · rw [Bool.not_eq_true] at htr
          rw [htr]
          simp only [Bool.false_eq_true, if_false]
          rw [ih vs2 acc hr]
          simp [List.filter_cons, hEb, htr, List.filterMap_cons]
      · rw [Bool.not_eq_true] at hEb
        rw [hEb]
        simp only [Bool.false_eq_true, if_false]
        rw [ih vs2 acc hr]
        simp [List.filter_cons, hEb]

theorem audioPass_views :
    ∀ (es : List JVal) (vs : List EditionView) (acc : List String),
      viewsOf es = .ok vs →
      audioPass es acc =
        .ok (dedupAppend acc
          ((vs.filter fun v => v.isAudio).filterMap fun v => v.isbn)) := by
  intro es
  induction es with
  | nil =>
      intro vs acc h
      simp only [viewsOf, Except.ok.injEq] at h
      subst h
      simp [audioPass, dedupAppend]
  | cons e es ih =>
      intro vs acc h
      obtain ⟨v, vs2, hv, hr, hvs⟩ := viewsOf_cons h
      subst hvs
      obtain ⟨f, t, i, hf, ht, hi, hveq⟩ := viewOf_parts hv
      subst hveq
      unfold audioPass
      dsimp only [Bind.bind, Except.bind]
      rw [editionHasTag_of_views hf ht "audioBook"]
      dsimp only
      by_cases hAb : (jStrEq f "audioBook" || jStrEq t "audioBook") = true
      · rw [hAb]
        simp only [if_true]
        rw [hi]
        dsimp only
        by_cases htr : truthy i = true
        · rw [htr]
          simp only [if_true]
          by_cases hc : acc.contains (cleanISBN i) = true
          · have hm : cleanISBN i ∈ acc := by
              have h2 := hc
              rw [List.contains] at h2
              exact List.elem_iff.mp h2
            rw [hc]
            simp only [if_true]
            rw [ih vs2 acc hr]
            simp [List.filter_cons, hAb, htr, List.filterMap_cons,
              dedupAppend_cons, hm]
          · rw [Bool.not_eq_true] at hc
            have hm : cleanISBN i ∉ acc := contains_false_not_mem hc
            rw [hc]
            simp only [Bool.false_eq_true, if_false]
            rw [ih vs2 (acc ++ [cleanISBN i]) hr]
            simp [List.filter_cons, hAb, htr, List.filterMap_cons,
              dedupAppend_cons, hm]
        · rw [Bool.not_eq_true] at htr
          rw [htr]
          simp only [Bool.false_eq_true, if_false]
          rw [ih vs2 acc hr]
          simp [List.filter_cons, hAb, htr, List.filterMap_cons]
      · rw [Bool.not_eq_true] at hAb
        rw [hAb]
        simp only [Bool.false_eq_true, if_false]
        rw [ih vs2 acc hr]
        simp [List.filter_cons, hAb]

theorem otherPass_views :
    ∀ (es : List JVal) (vs : List EditionView) (acc : List String),
      viewsOf es = .ok vs →
      otherPass es acc = .ok (dedupAppend acc (vs.filterMap fun v => v.isbn)) := by
  intro es
  induction es with
  | nil =>
      intro vs acc h
      simp only [viewsOf, Except.ok.injEq] at h
      subst h
      simp [otherPass, dedupAppend]
  | cons e es ih =>
      intro vs acc h
      obtain ⟨v, vs2, hv, hr, hvs⟩ := viewsOf_cons h
      subst hvs
      obtain ⟨f, t, i, hf, ht, hi, hveq⟩ := viewOf_parts hv
      subst hveq
      unfold otherPass
      dsimp only [Bind.bind, Except.bind]
      rw [hi]
      dsimp only
      by_cases htr : truthy i = true
      · rw [htr]
        simp only [if_true]
        by_cases hc : acc.contains (cleanISBN i) = true
        · have hm : cleanISBN i ∈ acc := by
            have h2 := hc
            rw [List.contains] at h2
            exact List.elem_iff.mp h2
          rw [hc]
          simp only [if_true]
          rw [ih vs2 acc hr]
          simp [List.filterMap_cons, htr, dedupAppend_cons, hm]
        · rw [Bool.not_eq_true] at hc
          have hm : cleanISBN i ∉ acc := contains_false_not_mem hc
          rw [hc]
          simp only [Bool.false_eq_true, if_false]
          rw [ih vs2 (acc ++ [cleanISBN i]) hr]
          simp [List.filterMap_cons, htr, dedupAppend_cons, hm]
      · rw [Bool.not_eq_true] at htr
        rw [htr]
        simp only [Bool.false_eq_true, if_false]
        rw [ih vs2 acc hr]
        simp [List.filterMap_cons, htr]

theorem extractAllISBNs_views (es : List JVal) (vs : List EditionView)
    (h : viewsOf es = .ok vs) :
    extractAllISBNs (.arr es) = .ok (specExtractIsbns vs) := by
  unfold extractAllISBNs
  dsimp only [Bind.bind, Except.bind]
  rw [ebookPass_views es vs [] h]
  dsimp only
  rw [audioPass_views es vs _ h]
  dsimp only
  rw [otherPass_views es vs _ h]
  simp [specExtractIsbns]

/-- C6 (amended): for every editions list whose per-edition field
accesses succeed (classification `viewsOf` returns a view of each
edition), extraction follows the claimed order `specExtractIsbns`: the
eBook-tagged editions' cleaned ISBNs first (in input order, duplicates
kept), then the audioBook-tagged editions' values not already collected,
then any other ISBN-bearing edition's value not already collected, each
in first-seen order and regardless of the editions' positions. In
particular an audioBook/eBook pair with nonempty, distinctly normalizing
ISBNs yields the eBook value first in either input order, and an
untagged ISBN-bearing edition listed first still lands last. The claim's
literal values `A` and `B` are deleted by normalization, so the output
there is `[""]` (see the counterexample). -/
theorem C6_amended :
    (∀ (es : List JVal) (vs : List EditionView), viewsOf es = .ok vs →
      extractAllISBNs (.arr es) = .ok (specExtractIsbns vs)) ∧
    (∀ (i j : String), i ≠ "" → j ≠ "" →
      cleanISBN (.str i) ≠ cleanISBN (.str j) →
      extractAllISBNs (.arr [audioEd i, ebookEd j]) =
        .ok [cleanISBN (.str j), cleanISBN (.str i)] ∧
      extractAllISBNs (.arr [ebookEd j, audioEd i]) =
        .ok [cleanISBN (.str j), cleanISBN (.str i)]) ∧
    extractAllISBNs
        (.arr [otherEd "3333333333", audioEd "1111111111", ebookEd "2222222222"]) =
      .ok ["2222222222", "1111111111", "3333333333"] := by
  refine ⟨extractAllISBNs_views, ?_, rfl⟩
  intro i j hi hj hne
  have hne2 : cleanISBN (.str j) ≠ cleanISBN (.str i) := Ne.symm hne
  constructor
  · unfold extractAllISBNs
    dsimp only [Bind.bind, Except.bind]
    simp [ebookPass, audioPass, otherPass, editionHasTag, audioEd, ebookEd,
      jGet, jLookup, jStrEq, truthy, hi, hj, hne, hne2, Bind.bind, Except.bind,
      pure, Except.pure]
  · unfold extractAllISBNs
    dsimp only [Bind.bind, Except.bind]
    simp [ebookPass, audioPass, otherPass, editionHasTag, audioEd, ebookEd,
      jGet, jLookup, jStrEq, truthy, hi, hj, hne, hne2, Bind.bind, Except.bind,
      pure, Except.pure]

/-- C6 witness: the universal ordering theorem instantiated at a concrete
audioBook/eBook edition list, and the pair instance at concrete distinct
ISBNs. -/
theorem C6_witness :
    viewsOf [audioEd "1111111111", ebookEd "2222222222"] = .ok c6views ∧
    extractAllISBNs (.arr [audioEd "1111111111", ebookEd "2222222222"]) =
      .ok (specExtractIsbns c6views) ∧
    ("1111111111" : String) ≠ "" ∧
    cleanISBN (.str "1111111111") ≠ cleanISBN (.str "2222222222") ∧
    extractAllISBNs (.arr [audioEd "1111111111", ebookEd "2222222222"]) =
      .ok [cleanISBN (.str "2222222222"), cleanISBN (.str "1111111111")] := by
  refine ⟨rfl, ?_, by decide, by decide, ?_⟩
  · exact C6_amended.1 [audioEd "1111111111", ebookEd "2222222222"] c6views rfl
  · exact (C6_amended.2.1 "1111111111" "2222222222" (by decide) (by decide)
      (by decide)).1

/-! ### Claim C4: identifier field spellings -/

/-- C4 counterexample: in the finished bucket the normalizer reads only
`book.bookId`, so an entry carrying only `bookid` produces a record whose
id is `undefined`, not the identifier `"42"`. -/
theorem C4_counterexample :
    processBooks sampleDateEnv c4data =
      .ok { finishedBooks := [{ title := .str "T", bookId := .undefined, isbns := [],
                                finishedDate := .str "2023-01-01", year := some 2023 }],
            savedBooks := [] } ∧
    JVal.undefined ≠ JVal.str "42" := by
  constructor
  · have e1 : processBooks sampleDateEnv c4data =
        .ok { finishedBooks :=
                [({ title := .str "T", bookId := .undefined, isbns := [],
                    finishedDate := .str "2023-01-01", year := some 2023 } : FinishedRec)].mergeSort
                  (finLe sampleDateEnv),
              savedBooks := ([] : List SavedRec).mergeSort (savLe sampleDateEnv) } := rfl
    rw [e1, List.mergeSort_singleton, List.mergeSort_nil]
  · intro h
    exact JVal.noConfusion h

/-- C4 (amended): the saved-bucket normalizer and the pipeline loader
accept either identifier spelling (`bookid || bookId` and
`bookId || bookid` respectively), but the finished-bucket normalizer
reads only `bookId` — an entry with only `bookid` yields an `undefined`
id there (see the counterexample). -/
theorem C4_amended :
    (processBooks sampleDateEnv c4dataSaved).map (fun st => st.savedBooks.map (·.bookId)) =
      .ok [.str "44", .str "45"] ∧
    (processBooks sampleDateEnv c4dataFinB).map (fun st => st.finishedBooks.map (·.bookId)) =
      .ok [.str "43"] ∧
    (loadBooks c4LbA).map (fun bs => bs.map Book.id) = .ok [.str "42"] ∧
    (loadBooks c4LbB).map (fun bs => bs.map Book.id) = .ok [.str "42"] := by
  refine ⟨?_, ?_, rfl, rfl⟩
  · have e1 : processBooks sampleDateEnv c4dataSaved =
        .ok { finishedBooks := ([] : List FinishedRec).mergeSort (finLe sampleDateEnv),
              savedBooks :=
                [({ title := .str "S", bookId := .str "44", isbns := [],
                    date := .str "2023-01-01", year := some 2023 } : SavedRec),
                 ({ title := .str "S2", bookId := .str "45", isbns := [],
                    date := .str "2023-01-01", year := some 2023 } : SavedRec)].mergeSort
                  (savLe sampleDateEnv) } := rfl
    rw [e1, List.mergeSort_nil]
    rw [@List.mergeSort_of_sorted SavedRec (savLe sampleDateEnv)
      [({ title := .str "S", bookId := .str "44", isbns := [],
          date := .str "2023-01-01", year := some 2023 } : SavedRec),
       ({ title := .str "S2", bookId := .str "45", isbns := [],
          date := .str "2023-01-01", year := some 2023 } : SavedRec)] (by decide)]
    rfl
  · have e1 : processBooks sampleDateEnv c4dataFinB =
        .ok { finishedBooks :=
                [({ title := .str "T", bookId := .str "43", isbns := [],
                    finishedDate := .str "2023-01-01", year := some 2023 } : FinishedRec)].mergeSort
                  (finLe sampleDateEnv),
              savedBooks := ([] : List SavedRec).mergeSort (savLe sampleDateEnv) } := rfl
    rw [e1, List.mergeSort_singleton, List.mergeSort_nil]
    rfl

/-! ### Claim C7: normalizer filtering and sorting -/

theorem exMap_mem {β : Type} {f : JVal → Except Unit β} :
    ∀ {xs : List JVal} {ys : List β}, exMap f xs = .ok ys →
      ∀ y ∈ ys, ∃ x ∈ xs, f x = .ok y := by
  intro xs
  induction xs with
  | nil =>
      intro ys h y hy
      simp only [exMap, Except.ok.injEq] at h
      subst h
      exact absurd hy (List.not_mem_nil y)
  | cons x xs ih =>
      intro ys h y hy
      unfold exMap at h
      dsimp only [Bind.bind, Except.bind] at h
      cases hfx : f x with
      | error u => rw [hfx] at h; exact absurd h (by simp)
      | ok y0 =>
          rw [hfx] at h
          dsimp only at h
          cases hrest : exMap f xs with
          | error u => rw [hrest] at h; exact absurd h (by simp)
          | ok ys0 =>
              rw [hrest] at h
              dsimp only [pure, Except.pure] at h
              have := Except.ok.inj h
              subst this
              rcases List.mem_cons.mp hy with h1 | h1
              · exact ⟨x, List.mem_cons_self x xs, h1 ▸ hfx⟩
              · obtain ⟨x2, hx2, hfx2⟩ := ih hrest y h1
                exact ⟨x2, List.mem_cons_of_mem x hx2, hfx2⟩

theorem mkFinishedRec_year {denv : DateEnv} {b : JVal} {r : FinishedRec}
    (h : mkFinishedRec denv b = .ok r) :
    r.year = extractYear denv r.finishedDate := by
  unfold mkFinishedRec at h
  dsimp only [Bind.bind, Except.bind] at h
  cases h1 : jGet b "title" with
  | error u => rw [h1] at h; exact absurd h (by simp)
  | ok t =>
    rw [h1] at h; dsimp only at h
    cases h2 : jGet b "bookId" with
    | error u => rw [h2] at h; exact absurd h (by simp)
    | ok bid =>
      rw [h2] at h; dsimp only at h
      cases h3 : jGet b "editions" with
      | error u => rw [h3] at h; exact absurd h (by simp)
      | ok eds =>
        rw [h3] at h; dsimp only at h
        cases h4 : extractAllISBNs eds with
        | error u => rw [h4] at h; exact absurd h (by simp)
        | ok isbns =>
          rw [h4] at h; dsimp only at h
          cases h5 : jGet b "finishedDate" with
          | error u => rw [h5] at h; exact absurd h (by simp)
          | ok fd =>
            rw [h5] at h; dsimp only [pure, Except.pure] at h
            have := Except.ok.inj h
            subst this
            rfl

theorem mkSavedRec_year {denv : DateEnv} {b : JVal} {r : SavedRec}
    (h : mkSavedRec denv b = .ok r) :
    r.year = extractYear denv r.date := by
  unfold mkSavedRec at h
  dsimp only [Bind.bind, Except.bind] at h
  cases h1 : jGet b "title" with
  | error u => rw [h1] at h; exact absurd h (by simp)
  | ok t =>
    rw [h1] at h; dsimp only at h
    cases h2 : jGet b "bookid" with
    | error u => rw [h2] at h; exact absurd h (by simp)
    | ok bid1 =>
      rw [h2] at h; dsimp only at h
      by_cases htr : truthy bid1 = true
      · rw [htr] at h; rw [if_pos rfl] at h
        cases h3 : jGet b "editions" with
        | error u => rw [h3] at h; exact absurd h (by simp [pure, Except.pure])
        | ok eds =>
          rw [h3] at h; dsimp only [pure, Except.pure] at h
          cases h4 : extractAllISBNs eds with
          | error u => rw [h4] at h; exact absurd h (by simp [pure, Except.pure])
          | ok isbns =>
            rw [h4] at h; dsimp only at h
            cases h5 : jGet b "date" with
            | error u => rw [h5] at h; exact absurd h (by simp [pure, Except.pure])
            | ok d =>
              rw [h5] at h; dsimp only [pure, Except.pure] at h
              have := Except.ok.inj h
              subst this
              rfl
      · rw [Bool.not_eq_true] at htr
        rw [htr] at h; rw [if_neg Bool.false_ne_true] at h
        cases h2b : jGet b "bookId" with
        | error u => rw [h2b] at h; exact absurd h (by simp)
        | ok bid =>
          rw [h2b] at h; dsimp only at h
          cases h3 : jGet b "editions" with
          | error u => rw [h3] at h; exact absurd h (by simp)
          | ok eds =>
            rw [h3] at h; dsimp only at h
            cases h4 : extractAllISBNs eds with
            | error u => rw [h4] at h; exact absurd h (by simp)
            | ok isbns =>
              rw [h4] at h; dsimp only at h
              cases h5 : jGet b "date" with
              | error u => rw [h5] at h; exact absurd h (by simp)
              | ok d =>
                rw [h5] at h; dsimp only [pure, Except.pure] at h
                have := Except.ok.inj h
                subst this
                rfl

theorem extractYear_parse {denv : DateEnv} {v : JVal} {y : Int}
    (h : extractYear denv v = some y) : ∃ ms, denv.parseDate v = some ms := by
  unfold extractYear at h
  split at h
  · cases hp : denv.parseDate v with
    | none => rw [hp] at h; exact absurd h (by simp)
    | some ms => exact ⟨ms, rfl⟩
  · exact absurd h (by simp)

theorem truthyYear_some {y : Option Int} (h : truthyYear y = true) :
    ∃ n, y = some n := by
  cases y with
  | none => exact absurd h (by simp [truthyYear])
  | some n => exact ⟨n, rfl⟩

/-- Sortedness transfer: the merge sort under the date comparator is
chainwise descending on raw date strings, provided the dates of the list
parse and the parse function is order-compatible. -/
theorem mergeSort_dateChain {α : Type} (denv : DateEnv) (dateOf : α → JVal) (l : List α)
    (hparse : ∀ r ∈ l, ∃ ms, denv.parseDate (dateOf r) = some ms)
    (hmono : ∀ s t x y, denv.parseDate (.str s) = some x →
      denv.parseDate (.str t) = some y → (x ≤ y ↔ s ≤ t)) :
    List.Chain' (fun a b => ∀ s t, dateOf a = .str s → dateOf b = .str t → t ≤ s)
      (l.mergeSort fun a b => decide (timeOf denv (dateOf b) ≤ timeOf denv (dateOf a))) := by
  have htrans : ∀ a b c : α,
      decide (timeOf denv (dateOf b) ≤ timeOf denv (dateOf a)) = true →
      decide (timeOf denv (dateOf c) ≤ timeOf denv (dateOf b)) = true →
      decide (timeOf denv (dateOf c) ≤ timeOf denv (dateOf a)) = true := by
    intro a b c hab hbc
    simp only [decide_eq_true_eq] at hab hbc ⊢
    exact le_trans hbc hab
  have htot : ∀ a b : α,
      (decide (timeOf denv (dateOf b) ≤ timeOf denv (dateOf a)) ||
        decide (timeOf denv (dateOf a) ≤ timeOf denv (dateOf b))) = true := by
    intro a b
    rcases le_total (timeOf denv (dateOf b)) (timeOf denv (dateOf a)) with h | h
    · simp [h]
    · simp [h]
  have hp := List.sorted_mergeSort htrans htot l
  refine List.Pairwise.chain' (List.Pairwise.imp_of_mem ?_ hp)
  intro a b ha hb hle s t hs ht
  have ha2 : a ∈ l := (List.mergeSort_perm l _).mem_iff.mp ha
  have hb2 : b ∈ l := (List.mergeSort_perm l _).mem_iff.mp hb
  obtain ⟨x, hx⟩ := hparse a ha2
  obtain ⟨y, hy⟩ := hparse b hb2
  simp only [decide_eq_true_eq] at hle
  have hta : timeOf denv (dateOf a) = x := by rw [timeOf, hx]; rfl
  have htb : timeOf denv (dateOf b) = y := by rw [timeOf, hy]; rfl
  rw [hta, htb] at hle
  rw [hs] at hx
  rw [ht] at hy
  exact (hmono t s y x hy hx).mp hle

/-- Deconstruction of a successful `processBooks` run. -/
theorem processBooks_ok {denv : DateEnv} {data : JVal} {st : PageState}
    (h : processBooks denv data = .ok st) :
    ∃ finRaws finRecs savRaws savRecs,
      exMap (mkFinishedRec denv) finRaws = .ok finRecs ∧
      exMap (mkSavedRec denv) savRaws = .ok savRecs ∧
      st.finishedBooks =
        (finRecs.filter fun r => truthyYear r.year && truthy r.title).mergeSort (finLe denv) ∧
      st.savedBooks =
        (savRecs.filter fun r => truthyYear r.year && truthy r.title).mergeSort (savLe denv) := by
  unfold processBooks at h
  dsimp only [Bind.bind, Except.bind] at h
  cases h1 : findCategory data "myfinishedbooks" with
  | error u => rw [h1] at h; exact absurd h (by simp)
  | ok finishedRaw =>
    rw [h1] at h
    dsimp only at h
    cases h2 : findCategory data "mysavedbooks" with
    | error u => rw [h2] at h; exact absurd h (by simp)
    | ok savedRaw =>
      rw [h2] at h
      dsimp only at h
      cases h3 : jElems finishedRaw with
      | error u => rw [h3] at h; exact absurd h (by simp)
      | ok finRaws =>
        rw [h3] at h
        dsimp only at h
        cases h4 : exMap (mkFinishedRec denv) finRaws with
        | error u => rw [h4] at h; exact absurd h (by simp)
        | ok finRecs =>
          rw [h4] at h
          dsimp only at h
          cases h5 : jElems savedRaw with
          | error u => rw [h5] at h; exact absurd h (by simp)
          | ok savRaws =>
            rw [h5] at h
            dsimp only at h
            cases h6 : exMap (mkSavedRec denv) savRaws with
            | error u => rw [h6] at h; exact absurd h (by simp)
            | ok savRecs =>
              rw [h6] at h
              dsimp only [pure, Except.pure] at h
              have := Except.ok.inj h
              subst this
              exact ⟨finRaws, finRecs, savRaws, savRecs, h4, h6, rfl, rfl⟩

/-- C7: every record in both normalizer output lists has a truthy title
and a truthy derived year (entries lacking either are excluded), and,
whenever the host date parse respects string order on parseable string
dates, each output list is descending in the raw date field: for adjacent
records `a, b` with string dates, `b.date <= a.date`. -/
theorem C7_theorem (denv : DateEnv) (data : JVal) (st : PageState)
    (hok : processBooks denv data = .ok st)
    (hmono : ∀ s t x y, denv.parseDate (.str s) = some x →
      denv.parseDate (.str t) = some y → (x ≤ y ↔ s ≤ t)) :
    (∀ r ∈ st.finishedBooks, truthy r.title = true ∧ truthyYear r.year = true) ∧
    (∀ r ∈ st.savedBooks, truthy r.title = true ∧ truthyYear r.year = true) ∧
    List.Chain' (fun a b => ∀ s t, a.finishedDate = .str s → b.finishedDate = .str t → t ≤ s)
      st.finishedBooks ∧
    List.Chain' (fun a b => ∀ s t, a.date = .str s → b.date = .str t → t ≤ s)
      st.savedBooks := by
  obtain ⟨finRaws, finRecs, savRaws, savRecs, h4, h6, hf, hs⟩ := processBooks_ok hok
  have hfinParse : ∀ r ∈ (finRecs.filter fun r => truthyYear r.year && truthy r.title),
      ∃ ms, denv.parseDate r.finishedDate = some ms := by
    intro r hr
    have hmem := List.mem_filter.mp hr
    obtain ⟨b, _, hb⟩ := exMap_mem h4 r hmem.1
    have hy := mkFinishedRec_year hb
    have hpred := hmem.2
    rw [Bool.and_eq_true] at hpred
    obtain ⟨n, hn⟩ := truthyYear_some hpred.1
    rw [hy] at hn
    exact extractYear_parse hn
  have hsavParse : ∀ r ∈ (savRecs.filter fun r => truthyYear r.year && truthy r.title),
      ∃ ms, denv.parseDate r.date = some ms := by
    intro r hr
    have hmem := List.mem_filter.mp hr
    obtain ⟨b, _, hb⟩ := exMap_mem h6 r hmem.1
    have hy := mkSavedRec_year hb
    have hpred := hmem.2
    rw [Bool.and_eq_true] at hpred
    obtain ⟨n, hn⟩ := truthyYear_some hpred.1
    rw [hy] at hn
    exact extractYear_parse hn
  refine ⟨?_, ?_, ?_, ?_⟩
  · intro r hr
    rw [hf] at hr
    have hr2 := (List.mergeSort_perm _ _).mem_iff.mp hr
    have hmem := List.mem_filter.mp hr2
    have hpred := hmem.2
    rw [Bool.and_eq_true] at hpred
    exact ⟨hpred.2, hpred.1⟩
  · intro r hr
    rw [hs] at hr
    have hr2 := (List.mergeSort_perm _ _).mem_iff.mp hr
    have hmem := List.mem_filter.mp hr2
    have hpred := hmem.2
    rw [Bool.and_eq_true] at hpred
    exact ⟨hpred.2, hpred.1⟩
  · rw [hf]
    exact mergeSort_dateChain denv (fun r : FinishedRec => r.finishedDate) _ hfinParse hmono
  · rw [hs]
    exact mergeSort_dateChain denv (fun r : SavedRec => r.date) _ hsavParse hmono

theorem c7denv_mono : ∀ s t x y, c7denv.parseDate (.str s) = some x →
    c7denv.parseDate (.str t) = some y → (x ≤ y ↔ s ≤ t) := by
  intro s t x y hs ht
  dsimp only [c7denv] at hs ht
  by_cases hs1 : s = "2023-01-01"
  · subst hs1
    rw [if_pos rfl] at hs
    by_cases ht1 : t = "2023-01-01"
    · subst ht1
      rw [if_pos rfl] at ht
      have hx := Option.some.inj hs
      have hy := Option.some.inj ht
      subst hx
      subst hy
      simp
    · rw [if_neg ht1] at ht
      exact absurd ht (by simp)
  · rw [if_neg hs1] at hs
    exact absurd hs (by simp)

theorem c7_eval : processBooks c7denv c7data = .ok c7state := by
  have e1 : processBooks c7denv c7data =
      .ok { finishedBooks :=
              [({ title := .str "T1", bookId := .str "1", isbns := [],
                  finishedDate := .str "2023-01-01", year := some 2023 } : FinishedRec),
               ({ title := .str "T2", bookId := .str "2", isbns := [],
                  finishedDate := .str "2023-01-01", year := some 2023 } : FinishedRec)].mergeSort
                (finLe c7denv),
            savedBooks :=
              [({ title := .str "S1", bookId := .str "3", isbns := [],
                  date := .str "2023-01-01", year := some 2023 } : SavedRec)].mergeSort
                (savLe c7denv) } := rfl
  rw [e1]
  rw [@List.mergeSort_of_sorted FinishedRec (finLe c7denv)
    [({ title := .str "T1", bookId := .str "1", isbns := [],
        finishedDate := .str "2023-01-01", year := some 2023 } : FinishedRec),
     ({ title := .str "T2", bookId := .str "2", isbns := [],
        finishedDate := .str "2023-01-01", year := some 2023 } : FinishedRec)] (by decide)]
  rw [List.mergeSort_singleton]
  rfl

/-- C7 witness: the theorem applied to concrete data with the hypotheses
discharged. -/
theorem C7_witness :
    processBooks c7denv c7data = .ok c7state ∧
    ((∀ r ∈ c7state.finishedBooks, truthy r.title = true ∧ truthyYear r.year = true) ∧
     (∀ r ∈ c7state.savedBooks, truthy r.title = true ∧ truthyYear r.year = true) ∧
     List.Chain' (fun a b => ∀ s t, a.finishedDate = .str s → b.finishedDate = .str t → t ≤ s)
       c7state.finishedBooks ∧
     List.Chain' (fun a b => ∀ s t, a.date = .str s → b.date = .str t → t ≤ s)
       c7state.savedBooks) :=
  ⟨c7_eval, C7_theorem c7denv c7data c7state c7_eval c7denv_mono⟩

/-! ### Combinators for the pipeline monad predicates -/

theorem MPost_pure {α : Type} {a : α} {P : α → Prop} (h : P a) : MPost (pure a) P := by
  intro l b l2 hb
  rw [M_pure_run, Prod.mk.injEq] at hb
  have := Except.ok.inj hb.1
  subst this
  exact h

theorem MPost_top {α : Type} {m : M α} {P : α → Prop} (h : ∀ a, P a) : MPost m P :=
  fun _ a _ _ => h a

theorem MPost_liftE {α : Type} {e : Except Unit α} {P : α → Prop}
    (h : ∀ a, e = .ok a → P a) : MPost (liftE e) P := by
  intro l a l2 ha
  rw [liftE_run, Prod.mk.injEq] at ha
  exact h a ha.1

theorem MPost_bind {α β : Type} {x : M α} {f : α → M β} {P : β → Prop}
    (h : ∀ a, MPost (f a) P) : MPost (x >>= f) P := by
  intro l b l2 hb
  rw [M_bind_run] at hb
  cases hx : x l with
  | mk r l1 =>
    rw [hx] at hb
    cases r with
    | ok a => exact h a l1 b l2 hb
    | error e => exact absurd hb (by simp)

theorem MPost_bind_strong {α β : Type} {x : M α} {f : α → M β} {P : β → Prop}
    (Q : α → Prop) (hx : MPost x Q) (h : ∀ a, Q a → MPost (f a) P) :
    MPost (x >>= f) P := by
  intro l b l2 hb
  rw [M_bind_run] at hb
  cases hxl : x l with
  | mk r l1 =>
    rw [hxl] at hb
    cases r with
    | ok a => exact h a (hx l a l1 hxl) l1 b l2 hb
    | error e => exact absurd hb (by simp)

theorem MPost_ite {α : Type} {c : Prop} [Decidable c] {x y : M α} {P : α → Prop}
    (hx : c → MPost x P) (hy : ¬ c → MPost y P) : MPost (if c then x else y) P := by
  by_cases hc : c
  · rw [if_pos hc]; exact hx hc
  · rw [if_neg hc]; exact hy hc

theorem MPost_tryCatch {α : Type} {body : M α} {fb : α} {P : α → Prop}
    (hb : MPost body P) (hf : P fb) : MPost (tryCatch body fb) P := by
  intro l a l2 h
  rw [tryCatch_run] at h
  cases hx : body l with
  | mk r l1 =>
    rw [hx] at h
    cases r with
    | ok a2 =>
        rw [Prod.mk.injEq] at h
        have := Except.ok.inj h.1
        subst this
        exact hb l a2 l1 hx
    | error e =>
        rw [Prod.mk.injEq] at h
        have := Except.ok.inj h.1
        subst this
        exact hf

theorem MOk_pure {α : Type} (a : α) : MOk (pure a : M α) :=
  fun l => ⟨a, l, rfl⟩

theorem MOk_bind {α β : Type} {x : M α} {f : α → M β}
    (hx : MOk x) (h : ∀ a, MOk (f a)) : MOk (x >>= f) := by
  intro l
  obtain ⟨a, l1, ha⟩ := hx l
  obtain ⟨b, l2, hb⟩ := h a l1
  refine ⟨b, l2, ?_⟩
  rw [M_bind_run, ha]
  exact hb

theorem MOk_tryCatch {α : Type} (body : M α) (fb : α) : MOk (tryCatch body fb) := by
  intro l
  cases hx : body l with
  | mk r l1 =>
    cases r with
    | ok a => exact ⟨a, l1, by rw [tryCatch_run, hx]⟩
    | error e => exact ⟨fb, l1, by rw [tryCatch_run, hx]⟩

theorem sizeNormedP_none {t : Nat} : sizeNormedP t none :=
  fun _ h => absurd h (by simp)

theorem truthySome_none : ∀ v : JVal, (none : Option JVal) = some v → truthy v = true :=
  fun _ h => absurd h (by simp)

theorem normedSome_none : ∀ v : JVal, (none : Option JVal) = some v → authorNormed v :=
  fun _ h => absurd h (by simp)

theorem MPost_tryFirst {f : String → M (Option CoverResult)} {P : Option CoverResult → Prop}
    (hf : ∀ isbn, MPost (f isbn) P) (hnone : P none) :
    ∀ isbns, MPost (tryFirst f isbns) P := by
  intro isbns
  induction isbns with
  | nil => exact MPost_pure hnone
  | cons i rest ih =>
      unfold tryFirst
      refine MPost_bind_strong P (hf i) ?_
      intro a ha
      cases a with
      | some res => exact MPost_pure ha
      | none => exact ih

theorem MOk_tryFirst {f : String → M (Option CoverResult)}
    (hf : ∀ isbn, MOk (f isbn)) : ∀ isbns, MOk (tryFirst f isbns) := by
  intro isbns
  induction isbns with
  | nil => exact MOk_pure none
  | cons i rest ih =>
      unfold tryFirst
      refine MOk_bind (hf i) ?_
      intro a
      cases a with
      | some res => exact MOk_pure _
      | none => exact ih

/-! ### Attempt specifications -/

theorem tryOpenLibrary_post (env : Net) (isbn : String) :
    MPost (tryOpenLibrary env isbn) (sizeNormedP 1000) := by
  unfold tryOpenLibrary
  refine MPost_tryCatch ?_ sizeNormedP_none
  unfold tryOpenLibraryBody
  refine MPost_bind fun searchData => ?_
  refine MPost_bind fun docs => ?_
  refine MPost_bind_strong (sizeNormedP 1000) ?_ ?_
  · unfold tryOpenLibraryStep1
    refine MPost_ite ?_ ?_
    · intro hdocs
      refine MPost_bind fun d0 => ?_
      refine MPost_ite ?_ ?_
      · intro hd0
        refine MPost_bind fun coverId => ?_
        refine MPost_ite ?_ ?_
        · intro hci
          refine MPost_bind fun imageData => ?_
          refine MPost_ite ?_ ?_
          · intro hsize
            refine MPost_bind fun an => ?_
            refine MPost_bind fun a0 => ?_
            refine MPost_pure ?_
            intro res hres
            cases Option.some.inj hres
            exact ⟨hsize, jOrNull_normed a0⟩
          · intro hns; exact MPost_pure sizeNormedP_none
        · intro hns; exact MPost_pure sizeNormedP_none
      · intro hns; exact MPost_pure sizeNormedP_none
    · intro hns; exact MPost_pure sizeNormedP_none
  · intro step1 hstep1
    cases step1 with
    | some r =>
        refine MPost_pure ?_
        intro res hres
        cases Option.some.inj hres
        exact hstep1 r rfl
    | none =>
        refine MPost_bind fun directData => ?_
        refine MPost_ite ?_ ?_
        · intro hsize
          refine MPost_pure ?_
          intro res hres
          cases Option.some.inj hres
          exact ⟨hsize, authorNormed_null⟩
        · intro hns; exact MPost_pure sizeNormedP_none

theorem tryGoogleBooks_post (env : Net) (isbn : String) :
    MPost (tryGoogleBooks env isbn) (sizeNormedP 2000) := by
  unfold tryGoogleBooks
  refine MPost_tryCatch ?_ sizeNormedP_none
  unfold tryGoogleBooksBody
  refine MPost_bind fun searchData => ?_
  refine MPost_bind fun items => ?_
  refine MPost_ite ?_ ?_
  · intro hitems
    refine MPost_bind fun item => ?_
    refine MPost_ite ?_ ?_
    · intro hitem
      refine MPost_bind fun vi => ?_
      refine MPost_bind fun imageLinks => ?_
      refine MPost_ite ?_ ?_
      · intro hlinks
        refine MPost_bind fun lrg => ?_
        refine MPost_bind fun med => ?_
        refine MPost_bind fun thm => ?_
        refine MPost_bind fun sml => ?_
        refine MPost_bind fun imageUrl => ?_
        refine MPost_bind fun imageData => ?_
        refine MPost_ite ?_ ?_
        · intro hsize
          refine MPost_bind fun vi2 => ?_
          refine MPost_bind fun authors => ?_
          refine MPost_bind fun a0 => ?_
          refine MPost_pure ?_
          intro res hres
          cases Option.some.inj hres
          exact ⟨hsize, jOrNull_normed a0⟩
        · intro hns; exact MPost_pure sizeNormedP_none
      · intro hns; exact MPost_pure sizeNormedP_none
    · intro hns; exact MPost_pure sizeNormedP_none
  · intro hns; exact MPost_pure sizeNormedP_none

theorem tryOpenLibraryTitleSearch_post (env : Net) (title : JVal) :
    MPost (tryOpenLibraryTitleSearch env title) (sizeNormedP 1000) := by
  unfold tryOpenLibraryTitleSearch
  refine MPost_tryCatch ?_ sizeNormedP_none
  unfold tryOpenLibraryTitleSearchBody
  refine MPost_bind fun searchTitle => ?_
  refine MPost_bind fun searchData => ?_
  refine MPost_bind fun docs => ?_
  refine MPost_bind fun withCover => ?_
  refine MPost_ite ?_ ?_
  · intro hwc
    refine MPost_bind fun ci => ?_
    refine MPost_ite ?_ ?_
    · intro hci
      refine MPost_bind fun imageData => ?_
      refine MPost_ite ?_ ?_
      · intro hsize
        refine MPost_bind fun an => ?_
        refine MPost_bind fun a0 => ?_
        refine MPost_pure ?_
        intro res hres
        cases Option.some.inj hres
        exact ⟨hsize, jOrNull_normed a0⟩
      · intro hns; exact MPost_pure sizeNormedP_none
    · intro hns; exact MPost_pure sizeNormedP_none
  · intro hns; exact MPost_pure sizeNormedP_none

theorem authorIsbnAttempt_post (env : Net) (isbn : String) :
    MPost (authorIsbnAttempt env isbn) (fun r => ∀ v, r = some v → truthy v = true) := by
  unfold authorIsbnAttempt
  refine MPost_tryCatch ?_ truthySome_none
  refine MPost_bind fun searchData => ?_
  refine MPost_bind fun items => ?_
  refine MPost_ite ?_ ?_
  · intro hitems
    refine MPost_bind fun i0 => ?_
    refine MPost_ite ?_ ?_
    · intro hi0
      refine MPost_bind fun vi => ?_
      refine MPost_bind fun authors => ?_
      refine MPost_bind fun author => ?_
      refine MPost_ite ?_ ?_
      · intro htr
        refine MPost_pure ?_
        intro v hv
        cases Option.some.inj hv
        exact htr
      · intro hns; exact MPost_pure truthySome_none
    · intro hns; exact MPost_pure truthySome_none
  · intro hns; exact MPost_pure truthySome_none

theorem authorIsbnLoop_post (env : Net) :
    ∀ isbns, MPost (authorIsbnLoop env isbns) (fun r => ∀ v, r = some v → truthy v = true) := by
  intro isbns
  induction isbns with
  | nil => exact MPost_pure truthySome_none
  | cons i rest ih =>
      unfold authorIsbnLoop
      refine MPost_bind_strong (fun r => ∀ v, r = some v → truthy v = true)
        (authorIsbnAttempt_post env i) ?_
      intro a ha
      cases a with
      | some v => exact MPost_pure ha
      | none => exact ih

theorem authorTitleAttempt_post (env : Net) (title : JVal) :
    MPost (authorTitleAttempt env title) (fun r => ∀ v, r = some v → authorNormed v) := by
  unfold authorTitleAttempt
  refine MPost_tryCatch ?_ normedSome_none
  refine MPost_bind fun searchTitle => ?_
  refine MPost_bind fun searchData => ?_
  refine MPost_bind fun docs => ?_
  refine MPost_ite ?_ ?_
  · intro hdocs
    refine MPost_bind fun d0 => ?_
    refine MPost_ite ?_ ?_
    · intro hd0
      refine MPost_bind fun an => ?_
      refine MPost_bind fun a0 => ?_
      refine MPost_pure ?_
      intro v hv
      cases Option.some.inj hv
      exact jOrNull_normed a0
    · intro hns; exact MPost_pure normedSome_none
  · intro hns; exact MPost_pure normedSome_none

theorem tryGetAuthorOnly_post (env : Net) (isbns : List String) (title : JVal) :
    MPost (tryGetAuthorOnly env isbns title) authorNormed := by
  unfold tryGetAuthorOnly
  refine MPost_bind_strong (fun r => ∀ v, r = some v → truthy v = true)
    (authorIsbnLoop_post env isbns) ?_
  intro a ha
  cases a with
  | some v => exact MPost_pure (Or.inl (ha v rfl))
  | none =>
      refine MPost_bind_strong (fun r => ∀ v, r = some v → authorNormed v)
        (authorTitleAttempt_post env title) ?_
      intro r hr
      cases r with
      | some v => exact MPost_pure (hr v rfl)
      | none => exact MPost_pure authorNormed_null

/-! ### Totality of the attempts and the loop -/

theorem tryOpenLibrary_ok (env : Net) (isbn : String) : MOk (tryOpenLibrary env isbn) :=
  MOk_tryCatch _ _

theorem tryGoogleBooks_ok (env : Net) (isbn : String) : MOk (tryGoogleBooks env isbn) :=
  MOk_tryCatch _ _

theorem tryOpenLibraryTitleSearch_ok (env : Net) (title : JVal) :
    MOk (tryOpenLibraryTitleSearch env title) :=
  MOk_tryCatch _ _

theorem authorIsbnLoop_ok (env : Net) : ∀ isbns, MOk (authorIsbnLoop env isbns) := by
  intro isbns
  induction isbns with
  | nil => exact MOk_pure none
  | cons i rest ih =>
      unfold authorIsbnLoop
      refine MOk_bind (MOk_tryCatch _ _) ?_
      intro a
      cases a with
      | some v => exact MOk_pure _
      | none => exact ih

theorem tryGetAuthorOnly_ok (env : Net) (isbns : List String) (title : JVal) :
    MOk (tryGetAuthorOnly env isbns title) := by
  unfold tryGetAuthorOnly
  refine MOk_bind (authorIsbnLoop_ok env isbns) ?_
  intro a
  cases a with
  | some v => exact MOk_pure _
  | none =>
      refine MOk_bind (MOk_tryCatch _ _) ?_
      intro r
      cases r with
      | some v => exact MOk_pure _
      | none => exact MOk_pure _

theorem cascade_ok (env : Net) (b : Book) : MOk (cascade env b) := by
  unfold cascade
  refine MOk_bind (MOk_tryFirst (tryOpenLibrary_ok env) b.isbns) ?_
  intro r1
  cases r1 with
  | some r => exact MOk_pure _
  | none =>
      refine MOk_bind (MOk_tryFirst (tryGoogleBooks_ok env) b.isbns) ?_
      intro r2
      cases r2 with
      | some r => exact MOk_pure _
      | none => exact tryOpenLibraryTitleSearch_ok env b.title

theorem MOk_ite {α : Type} {c : Prop} [Decidable c] {x y : M α}
    (hx : c → MOk x) (hy : ¬ c → MOk y) : MOk (if c then x else y) := by
  by_cases hc : c
  · rw [if_pos hc]; exact hx hc
  · rw [if_neg hc]; exact hy hc

theorem processBook_ok (env : Net) (existing : List (String × CoverEntry))
    (st : RunState) (b : Book) : MOk (processBook env existing st b) := by
  unfold processBook
  refine MOk_ite (fun _ => MOk_pure _) fun _ => ?_
  refine MOk_ite (fun _ => MOk_pure _) fun _ => ?_
  refine MOk_bind (cascade_ok env b) ?_
  intro result
  cases result with
  | some r => exact MOk_pure _
  | none =>
      refine MOk_bind (tryGetAuthorOnly_ok env b.isbns b.title) ?_
      intro author
      exact MOk_pure _

theorem runLoop_ok (env : Net) (existing : List (String × CoverEntry)) :
    ∀ (books : List Book) (st : RunState), MOk (runLoop env existing books st) := by
  intro books
  induction books with
  | nil => intro st; exact MOk_pure st
  | cons b bs ih =>
      intro st
      unfold runLoop
      exact MOk_bind (processBook_ok env existing st b) fun st2 => ih st2

/-! ### Claim C8: image-size rejection -/

/-- C8: an image at or below the source's minimum byte size is never
accepted — every accepted Open Library cover (search stage or direct
endpoint) exceeds 1000 bytes, every accepted Google Books cover exceeds
2000 bytes, every accepted title-search cover exceeds 1000 bytes — and an
attempt that yields no result makes the per-ISBN loop proceed to the next
candidate. -/
theorem C8_theorem :
    (∀ (env : Net) (isbn : String) (l l2 : List String) (r : CoverResult),
      tryOpenLibrary env isbn l = (.ok (some r), l2) → 1000 < r.buffer.length) ∧
    (∀ (env : Net) (isbn : String) (l l2 : List String) (r : CoverResult),
      tryGoogleBooks env isbn l = (.ok (some r), l2) → 2000 < r.buffer.length) ∧
    (∀ (env : Net) (title : JVal) (l l2 : List String) (r : CoverResult),
      tryOpenLibraryTitleSearch env title l = (.ok (some r), l2) → 1000 < r.buffer.length) ∧
    (∀ (f : String → M (Option CoverResult)) (isbn : String) (rest : List String)
      (l l2 : List String), f isbn l = (.ok none, l2) →
      tryFirst f (isbn :: rest) l = tryFirst f rest l2) := by
  refine ⟨?_, ?_, ?_, ?_⟩
  · intro env isbn l l2 r h
    exact ((tryOpenLibrary_post env isbn) l (some r) l2 h r rfl).1
  · intro env isbn l l2 r h
    exact ((tryGoogleBooks_post env isbn) l (some r) l2 h r rfl).1
  · intro env title l l2 r h
    exact ((tryOpenLibraryTitleSearch_post env title) l (some r) l2 h r rfl).1
  · intro f isbn rest l l2 h
    conv_lhs => unfold tryFirst
    rw [M_bind_run, h]

set_option maxRecDepth 100000 in
/-- C8 witness: concrete environments where each source accepts an image
just above its threshold, and a no-result attempt that makes the loop
move on. -/
theorem C8_witness :
    tryOpenLibrary c8envOL "1" [] =
      (.ok (some { buffer := List.replicate 1001 0, author := JVal.null }),
        [olSearchIsbnUrl "1", olCoverIsbnUrl "1"]) ∧
    1000 < (List.replicate 1001 (0 : Nat)).length ∧
    tryGoogleBooks c8envGB "1" [] =
      (.ok (some { buffer := List.replicate 2001 0, author := JVal.null }),
        [gbSearchUrl "1", "https://img"]) ∧
    2000 < (List.replicate 2001 (0 : Nat)).length ∧
    tryOpenLibraryTitleSearch c8envT (.str "T") [] =
      (.ok (some { buffer := List.replicate 1001 0, author := JVal.null }),
        [olTitleUrl "T" 5, olCoverIdUrl "7"]) ∧
    noResultAttempt "1" [] = (.ok none, []) ∧
    tryFirst noResultAttempt ["1", "2"] [] = tryFirst noResultAttempt ["2"] [] := by
  refine ⟨rfl, ?_, rfl, ?_, rfl, rfl, ?_⟩
  · exact C8_theorem.1 c8envOL "1" [] [olSearchIsbnUrl "1", olCoverIsbnUrl "1"]
      { buffer := List.replicate 1001 0, author := JVal.null } rfl
  · exact C8_theorem.2.1 c8envGB "1" [] [gbSearchUrl "1", "https://img"]
      { buffer := List.replicate 2001 0, author := JVal.null } rfl
  · exact C8_theorem.2.2.2 noResultAttempt "1" ["2"] [] [] rfl

/-! ### Claim C9: error containment -/

/-- C9 counterexample: the export file content `5` is valid JSON — the
top-level parse succeeds — yet the run is fatal, because `loadBooks`
iterates a non-iterable value (TypeError).  So "the only fatal error is
failure to parse the top-level export file" is false as stated. -/
theorem C9_counterexample :
    c9env.exportData = .ok (.num 5) ∧
    mainRun c9env [] [] [] = (.error (), []) := ⟨rfl, rfl⟩

/-- C9 (amended): every network or response-parse failure inside a single
lookup attempt is caught within that attempt — each attempt function
always returns without throwing, for every environment — and the
resolution loop never aborts for any network behavior; a failure to parse
the top-level export file is fatal.  (Beyond the claim's wording, an
export that parses to a malformed shape — a non-iterable value where the
loader iterates — is also fatal; see the counterexample.) -/
theorem C9_theorem :
    (∀ (env : Net) (isbn : String) (l : List String),
      ∃ a l2, tryOpenLibrary env isbn l = (.ok a, l2)) ∧
    (∀ (env : Net) (isbn : String) (l : List String),
      ∃ a l2, tryGoogleBooks env isbn l = (.ok a, l2)) ∧
    (∀ (env : Net) (title : JVal) (l : List String),
      ∃ a l2, tryOpenLibraryTitleSearch env title l = (.ok a, l2)) ∧
    (∀ (env : Net) (isbns : List String) (title : JVal) (l : List String),
      ∃ a l2, tryGetAuthorOnly env isbns title l = (.ok a, l2)) ∧
    (∀ (env : Net) (existing : List (String × CoverEntry)) (books : List Book)
      (st : RunState) (l : List String),
      ∃ st2 l2, runLoop env existing books st l = (.ok st2, l2)) ∧
    (∀ (env : Net) (existing : List (String × CoverEntry)) (fs0 : List (String × Buf))
      (l : List String), env.exportData = .error () →
      (mainRun env existing fs0 l).1 = .error ()) := by
  refine ⟨?_, ?_, ?_, ?_, ?_, ?_⟩
  · intro env isbn l; exact tryOpenLibrary_ok env isbn l
  · intro env isbn l; exact tryGoogleBooks_ok env isbn l
  · intro env title l; exact tryOpenLibraryTitleSearch_ok env title l
  · intro env isbns title l; exact tryGetAuthorOnly_ok env isbns title l
  · intro env existing books st l; exact runLoop_ok env existing books st l
  · intro env existing fs0 l h
    unfold mainRun
    rw [M_bind_run, liftE_run, h]

/-- C9 witness: the attempts return without throwing on an
always-failing network, and an export-parse failure is fatal. -/
theorem C9_witness :
    (∃ a l2, tryOpenLibrary failNet "11" [] = (.ok a, l2)) ∧
    failNet.exportData = .error () ∧
    (mainRun failNet [] [] []).1 = .error () := by
  refine ⟨C9_theorem.1 failNet "11" [], rfl, ?_⟩
  exact C9_theorem.2.2.2.2.2 failNet [] [] [] rfl

/-! ### Association-list lemmas -/

theorem alookup_cons {α : Type} (k k2 : String) (v : α) (rest : List (String × α)) :
    alookup k ((k2, v) :: rest) = if k2 = k then some v else alookup k rest := rfl

theorem alookup_none_iff_not_mem_keys {α : Type} (k : String) :
    ∀ m : List (String × α), alookup k m = none ↔ k ∉ m.map Prod.fst := by
  intro m
  induction m with
  | nil => simp [alookup]
  | cons p rest ih =>
      cases p with
      | mk k2 v =>
        rw [alookup_cons]
        by_cases h : k2 = k
        · subst h
          simp
        · rw [if_neg h]
          simp only [List.map_cons, List.mem_cons]
          rw [ih]
          constructor
          · intro hn hm
            rcases hm with hm | hm
            · exact h hm.symm
            · exact hn hm
          · intro hn hm
            exact hn (Or.inr hm)

theorem alookup_isSome_of_mem_keys {α : Type} {k : String} {m : List (String × α)}
    (h : k ∈ m.map Prod.fst) : (alookup k m).isSome = true := by
  cases hl : alookup k m with
  | none => exact absurd h ((alookup_none_iff_not_mem_keys k m).mp hl)
  | some v => rfl

theorem any_key_iff_mem {α : Type} (k : String) :
    ∀ m : List (String × α), (m.any fun p => p.1 = k) = true ↔ k ∈ m.map Prod.fst := by
  intro m
  induction m with
  | nil => simp
  | cons p rest ih =>
      simp only [List.any_cons, Bool.or_eq_true, List.map_cons, List.mem_cons, ih,
        decide_eq_true_eq]
      constructor
      · intro h; rcases h with h | h
        · exact Or.inl h.symm
        · exact Or.inr h
      · intro h; rcases h with h | h
        · exact Or.inl h.symm
        · exact Or.inr h

theorem assocSet_fresh {α : Type} {m : List (String × α)} {k : String} (v : α)
    (h : k ∉ m.map Prod.fst) : assocSet m k v = m ++ [(k, v)] := by
  unfold assocSet
  rw [if_neg]
  intro hc
  exact h ((any_key_iff_mem k m).mp hc)

theorem assocSet_keys_fresh {α : Type} {m : List (String × α)} {k : String} (v : α)
    (h : k ∉ m.map Prod.fst) :
    (assocSet m k v).map Prod.fst = m.map Prod.fst ++ [k] := by
  rw [assocSet_fresh v h, List.map_append]
  rfl

theorem alookup_append_right {α : Type} {k : String} {m : List (String × α)}
    (m2 : List (String × α)) (h : k ∉ m.map Prod.fst) :
    alookup k (m ++ m2) = alookup k m2 := by
  induction m with
  | nil => rfl
  | cons p rest ih =>
      cases p with
      | mk k2 w =>
        simp only [List.map_cons, List.mem_cons] at h
        push_neg at h
        rw [List.cons_append, alookup_cons, if_neg (fun hc => h.1 hc.symm)]
        exact ih h.2

theorem alookup_append {α : Type} (k : String) (m m2 : List (String × α)) :
    alookup k (m ++ m2) = match alookup k m with
      | some v => some v
      | none => alookup k m2 := by
  induction m with
  | nil => rfl
  | cons p rest ih =>
      cases p with
      | mk k2 w =>
        rw [List.cons_append, alookup_cons, alookup_cons]
        by_cases h : k2 = k
        · rw [if_pos h, if_pos h]
        · rw [if_neg h, if_neg h]
          exact ih

theorem alookup_assocSet_self {α : Type} (m : List (String × α)) (k : String) (v : α) :
    alookup k (assocSet m k v) = some v := by
  unfold assocSet
  by_cases h : (m.any fun p => p.1 = k) = true
  · rw [if_pos h]
    induction m with
    | nil => simp at h
    | cons p rest ih =>
        cases p with
        | mk k2 w =>
          simp only [List.any_cons, Bool.or_eq_true, decide_eq_true_eq] at h
          rw [List.map_cons]
          by_cases hk : k2 = k
          · subst hk
            rw [if_pos rfl, alookup_cons, if_pos rfl]
          · rw [if_neg hk, alookup_cons, if_neg hk]
            rcases h with h | h
            · exact absurd h hk
            · exact ih h
  · rw [if_neg h]
    have hnm : k ∉ m.map Prod.fst := fun hm => h ((any_key_iff_mem k m).mpr hm)
    rw [alookup_append_right _ hnm, alookup_cons, if_pos rfl]

theorem alookup_map_overwrite {α : Type} (k : String) (v : α) {p : String} (h : p ≠ k) :
    ∀ m : List (String × α),
      alookup p (m.map fun q => if q.1 = k then (k, v) else q) = alookup p m := by
  intro m
  induction m with
  | nil => rfl
  | cons q rest ih =>
      cases q with
      | mk k2 w =>
        rw [List.map_cons]
        by_cases hk : k2 = k
        · rw [if_pos (show (k2, w).1 = k from hk), alookup_cons, alookup_cons,
            if_neg (fun hc => h hc.symm),
            if_neg (fun hc : k2 = p => h (hc ▸ hk))]
          exact ih
        · rw [if_neg (show ¬ (k2, w).1 = k from hk), alookup_cons, alookup_cons]
          by_cases hkp : k2 = p
          · rw [if_pos hkp, if_pos hkp]
          · rw [if_neg hkp, if_neg hkp]
            exact ih

theorem alookup_assocSet_ne {α : Type} (m : List (String × α)) (k : String) (v : α)
    {p : String} (h : p ≠ k) : alookup p (assocSet m k v) = alookup p m := by
  unfold assocSet
  by_cases hc : (m.any fun q => q.1 = k) = true
  · rw [if_pos hc]
    exact alookup_map_overwrite k v h m
  · rw [if_neg hc, alookup_append]
    cases hl : alookup p m with
    | some v2 => rfl
    | none =>
        rw [alookup_cons, if_neg (fun hc2 => h hc2.symm)]
        rfl

/-! ### Per-book step characterization -/

theorem MPost_mono {α : Type} {m : M α} {P Q : α → Prop}
    (h : MPost m P) (himp : ∀ a, P a → Q a) : MPost m Q :=
  fun l a l2 hl => himp a (h l a l2 hl)

theorem cascade_post (env : Net) (b : Book) :
    MPost (cascade env b) (fun r => ∀ res, r = some res → authorNormed res.author) := by
  unfold cascade
  refine MPost_bind_strong (fun r => ∀ res, r = some res → authorNormed res.author)
    (MPost_tryFirst
      (fun isbn => MPost_mono (tryOpenLibrary_post env isbn)
        (fun r hr res hres => (hr res hres).2))
      (fun res h => absurd h (by simp)) b.isbns) ?_
  intro r1 h1
  cases r1 with
  | some r => exact MPost_pure h1
  | none =>
      refine MPost_bind_strong (fun r => ∀ res, r = some res → authorNormed res.author)
        (MPost_tryFirst
          (fun isbn => MPost_mono (tryGoogleBooks_post env isbn)
            (fun r hr res hres => (hr res hres).2))
          (fun res h => absurd h (by simp)) b.isbns) ?_
      intro r2 h2
      cases r2 with
      | some r => exact MPost_pure h2
      | none =>
          exact MPost_mono (tryOpenLibraryTitleSearch_post env b.title)
            (fun r hr res hres => (hr res hres).2)

theorem not_isSome_eq_none {α : Type} {o : Option α}
    (h : ¬ (o.isSome = true)) : o = none := by
  cases o with
  | none => rfl
  | some v => exact absurd rfl h

theorem processBook_post (env : Net) (existing : List (String × CoverEntry))
    (st : RunState) (b : Book) :
    MPost (processBook env existing st b) (bookStepP st b) := by
  unfold processBook
  refine MPost_ite ?_ ?_
  · intro hfile
    refine MPost_pure ?_
    refine ⟨_, rfl, jOrNull_normed _, Or.inl ⟨rfl, hfile, fun p hp => rfl⟩⟩
  · intro hnfile
    have hnone : alookup (coverPathOf b) st.fs = none := not_isSome_eq_none hnfile
    refine MPost_ite ?_ ?_
    · intro hskip
      cases hex : alookup (keyOf b) existing with
      | none => rw [hex] at hskip; exact absurd hskip (by simp)
      | some e0 =>
          rw [hex] at hskip
          dsimp only at hskip
          rw [Bool.and_eq_true] at hskip
          have hpath : e0.path = none := of_decide_eq_true hskip.1
          have hauth : truthy e0.author = true := hskip.2
          refine MPost_pure ?_
          exact ⟨e0, rfl, Or.inl hauth, Or.inr ⟨hpath, rfl, hnone⟩⟩
    · intro hnskip
      refine MPost_bind_strong (fun r => ∀ res, r = some res → authorNormed res.author)
        (cascade_post env b) ?_
      intro result hres
      cases result with
      | some r =>
          refine MPost_pure ?_
          refine ⟨{ path := some (coverPathOf b), author := r.author }, rfl,
            hres r rfl, Or.inl ⟨rfl, ?_, ?_⟩⟩
          · show (alookup (coverPathOf b) (assocSet st.fs (coverPathOf b) r.buffer)).isSome = true
            rw [alookup_assocSet_self]
            rfl
          · intro p hp
            exact alookup_assocSet_ne st.fs (coverPathOf b) r.buffer hp
      | none =>
          refine MPost_bind_strong authorNormed (tryGetAuthorOnly_post env b.isbns b.title) ?_
          intro author hnorm
          refine MPost_pure ?_
          exact ⟨{ path := none, author := author }, rfl, hnorm, Or.inr ⟨rfl, rfl, hnone⟩⟩

theorem coverPathOf_inj {a b : Book} (h : coverPathOf a = coverPathOf b) :
    keyOf a = keyOf b := by
  unfold coverPathOf at h
  have h2 := congrArg String.data h
  simp only [String.data_append, List.append_assoc] at h2
  have h3 := List.append_cancel_left h2
  have h4 := List.append_cancel_right h3
  exact String.ext h4

/-! ### Loop invariant of a full run -/

theorem runLoop_inv (env : Net) (ex : List (String × CoverEntry)) :
    ∀ (books : List Book) (st : RunState) (l : List String) (st2 : RunState)
      (l2 : List String),
    runLoop env ex books st l = (.ok st2, l2) →
    (books.map keyOf).Nodup →
    (∀ b ∈ books, keyOf b ∉ st.coversMap.map Prod.fst) →
    (st2.coversMap.map Prod.fst = st.coversMap.map Prod.fst ++ books.map keyOf) ∧
    (∀ k, k ∉ books.map keyOf → alookup k st2.coversMap = alookup k st.coversMap) ∧
    (∀ p, p ∉ books.map coverPathOf → alookup p st2.fs = alookup p st.fs) ∧
    (∀ p, alookup p st.fs ≠ none → alookup p st2.fs ≠ none) ∧
    (∀ b ∈ books, ∃ e, alookup (keyOf b) st2.coversMap = some e ∧ authorNormed e.author ∧
      ((e.path = some (coverPathOf b) ∧ alookup (coverPathOf b) st2.fs ≠ none) ∨
       (e.path = none ∧ alookup (coverPathOf b) st2.fs = none))) := by
  intro books
  induction books with
  | nil =>
      intro st l st2 l2 h _ _
      rw [show runLoop env ex [] st = pure st from rfl, M_pure_run, Prod.mk.injEq] at h
      have hst := Except.ok.inj h.1
      subst hst
      exact ⟨by simp, fun k _ => rfl, fun p _ => rfl, fun p hp => hp,
        fun b hb => absurd hb (List.not_mem_nil b)⟩
  | cons b bs ih =>
      intro st l st2 l2 h hnd hfresh
      rw [show runLoop env ex (b :: bs) st =
        (processBook env ex st b >>= fun stb => runLoop env ex bs stb) from rfl,
        M_bind_run] at h
      cases hpb : processBook env ex st b l with
      | mk r lb =>
        rw [hpb] at h
        cases r with
        | error u => exact absurd h (by simp)
        | ok stb =>
          obtain ⟨e, hcm, hnormed, hcase⟩ := processBook_post env ex st b l stb lb hpb
          rw [List.map_cons] at hnd
          have hbnot : keyOf b ∉ bs.map keyOf := (List.nodup_cons.mp hnd).1
          have hndtail : (bs.map keyOf).Nodup := (List.nodup_cons.mp hnd).2
          have hfreshb : keyOf b ∉ st.coversMap.map Prod.fst :=
            hfresh b (List.mem_cons_self b bs)
          have hkeysb : stb.coversMap.map Prod.fst =
              st.coversMap.map Prod.fst ++ [keyOf b] := by
            rw [hcm]; exact assocSet_keys_fresh e hfreshb
          have hfresh2 : ∀ b2 ∈ bs, keyOf b2 ∉ stb.coversMap.map Prod.fst := by
            intro b2 hb2
            rw [hkeysb]
            intro hmem
            rcases List.mem_append.mp hmem with hm | hm
            · exact hfresh b2 (List.mem_cons_of_mem b hb2) hm
            · rw [List.mem_singleton] at hm
              exact hbnot (hm ▸ List.mem_map_of_mem keyOf hb2)
          obtain ⟨ihA, ihE, ihC, ihB, ihD⟩ := ih stb lb st2 l2 h hndtail hfresh2
          have hfsoff : ∀ p, p ≠ coverPathOf b → alookup p stb.fs = alookup p st.fs := by
            intro p hp
            rcases hcase with ⟨_, _, hoff⟩ | ⟨_, hfs, _⟩
            · exact hoff p hp
            · rw [hfs]
          have hfsmono : ∀ p, alookup p st.fs ≠ none → alookup p stb.fs ≠ none := by
            intro p hp
            by_cases hpc : p = coverPathOf b
            · subst hpc
              rcases hcase with ⟨_, hsome, _⟩ | ⟨_, hfs, _⟩
              · intro hcontra; rw [hcontra] at hsome; exact absurd hsome (by simp)
              · rw [hfs]; exact hp
            · rw [hfsoff p hpc]; exact hp
          have hcpnot : coverPathOf b ∉ bs.map coverPathOf := by
            intro hmem
            obtain ⟨b2, hb2, hpeq⟩ := List.mem_map.mp hmem
            exact hbnot ((coverPathOf_inj hpeq) ▸ List.mem_map_of_mem keyOf hb2)
          refine ⟨?_, ?_, ?_, ?_, ?_⟩
          · rw [ihA, hkeysb, List.map_cons, List.append_assoc]
            rfl
          · intro k hk
            simp only [List.map_cons, List.mem_cons] at hk
            push_neg at hk
            rw [ihE k hk.2, hcm, alookup_assocSet_ne _ _ _ hk.1]
          · intro p hp
            simp only [List.map_cons, List.mem_cons] at hp
            push_neg at hp
            rw [ihC p hp.2, hfsoff p hp.1]
          · intro p hp
            exact ihB p (hfsmono p hp)
          · intro b2 hb2
            rcases List.mem_cons.mp hb2 with hb2 | hb2
            · subst hb2
              refine ⟨e, ?_, hnormed, ?_⟩
              · rw [ihE (keyOf b2) hbnot, hcm, alookup_assocSet_self]
              · rcases hcase with ⟨hpath, hsome, _⟩ | ⟨hpath, hfs, hnone⟩
                · left
                  refine ⟨hpath, ihB (coverPathOf b2) ?_⟩
                  intro hcontra
                  rw [hcontra] at hsome
                  exact absurd hsome (by simp)
                · right
                  refine ⟨hpath, ?_⟩
                  rw [ihC (coverPathOf b2) hcpnot, hfs]
                  exact hnone
            · exact ihD b2 hb2

/-! ### Skip-branch equations -/

theorem processBook_skip1 (env : Net) (existing : List (String × CoverEntry))
    (st : RunState) (b : Book)
    (h : (alookup (coverPathOf b) st.fs).isSome = true) :
    processBook env existing st b =
      pure { st with coversMap := assocSet st.coversMap (keyOf b) (skip1Entry existing b) } := by
  unfold processBook skip1Entry
  rw [if_pos h]

theorem processBook_skip2 (env : Net) (existing : List (String × CoverEntry))
    (st : RunState) (b : Book) (e0 : CoverEntry)
    (hfile : alookup (coverPathOf b) st.fs = none)
    (hex : alookup (keyOf b) existing = some e0)
    (hpath : e0.path = none) (hauth : truthy e0.author = true) :
    processBook env existing st b =
      pure { st with coversMap := assocSet st.coversMap (keyOf b) e0 } := by
  unfold processBook
  rw [hex]
  rw [if_neg (by rw [hfile]; simp)]
  rw [if_pos (by dsimp only; rw [Bool.and_eq_true]; exact ⟨decide_eq_true hpath, hauth⟩)]
  rfl

theorem skip1Entry_eq {existing : List (String × CoverEntry)} {b : Book} {e0 : CoverEntry}
    (hlook : alookup (keyOf b) existing = some e0)
    (hpath : e0.path = some (coverPathOf b)) (hnorm : authorNormed e0.author) :
    skip1Entry existing b = e0 := by
  unfold skip1Entry
  rw [hlook]
  dsimp only
  rw [jOrNull_of_normed _ hnorm]
  cases e0 with
  | mk pth au =>
      dsimp only at hpath
      simp only [CoverEntry.mk.injEq]
      exact ⟨hpath.symm, trivial⟩

/-- A second pass over books that are all skippable performs no network
call and rebuilds the persisted map unchanged: processing `books` whose
entries form the `tail` of the persisted map `map1` (the part not yet
copied into the in-memory map `cm2`) ends in exactly `map1` with the log
untouched. -/
theorem runLoop_allSkip (env : Net) (map1 : List (String × CoverEntry))
    (fs1 : List (String × Buf)) :
    ∀ (books : List Book) (cm2 tail : List (String × CoverEntry)) (l : List String),
    map1 = cm2 ++ tail →
    tail.map Prod.fst = books.map keyOf →
    (map1.map Prod.fst).Nodup →
    (∀ b ∈ books, ∃ e, alookup (keyOf b) map1 = some e ∧
      ((e.path = some (coverPathOf b) ∧ (alookup (coverPathOf b) fs1).isSome = true ∧
        authorNormed e.author) ∨
       (e.path = none ∧ truthy e.author = true ∧ alookup (coverPathOf b) fs1 = none))) →
    runLoop env map1 books { fs := fs1, coversMap := cm2 } l =
      (.ok { fs := fs1, coversMap := map1 }, l) := by
  intro books
  induction books with
  | nil =>
      intro cm2 tail l hsplit htail _ _
      have htn : tail = [] := by
        cases tail with
        | nil => rfl
        | cons p rest => simp at htail
      subst htn
      rw [List.append_nil] at hsplit
      subst hsplit
      rfl
  | cons b bs ih =>
      intro cm2 tail l hsplit htail hnd hskip
      cases tail with
      | nil => simp at htail
      | cons p tail2 =>
        cases p with
        | mk k0 e0 =>
          simp only [List.map_cons, List.cons.injEq] at htail
          obtain ⟨hk0, htail2⟩ := htail
          have hkeys : map1.map Prod.fst =
              cm2.map Prod.fst ++ k0 :: tail2.map Prod.fst := by
            rw [hsplit]
            simp
          have hnotcm2 : k0 ∉ cm2.map Prod.fst := by
            rw [hkeys] at hnd
            obtain ⟨_, _, hdisj⟩ := List.nodup_append.mp hnd
            intro hm
            exact hdisj hm (List.mem_cons_self k0 _)
          have hlook : alookup (keyOf b) map1 = some e0 := by
            rw [hsplit, ← hk0, alookup_append_right _ hnotcm2, alookup_cons, if_pos rfl]
          obtain ⟨e, helook, hcases⟩ := hskip b (List.mem_cons_self b bs)
          have he : e = e0 := by
            rw [hlook] at helook
            exact (Option.some.inj helook).symm
          subst he
          have hstep : runLoop env map1 (b :: bs) { fs := fs1, coversMap := cm2 } l =
              runLoop env map1 bs
                { fs := fs1, coversMap := assocSet cm2 (keyOf b) e } l := by
            rcases hcases with ⟨hpath, hfile, hnorm⟩ | ⟨hpath, hauth, hnone⟩
            · rw [show runLoop env map1 (b :: bs) { fs := fs1, coversMap := cm2 } =
                (processBook env map1 { fs := fs1, coversMap := cm2 } b >>=
                  fun stb => runLoop env map1 bs stb) from rfl, M_bind_run,
                processBook_skip1 env map1 { fs := fs1, coversMap := cm2 } b hfile,
                M_pure_run, skip1Entry_eq hlook hpath hnorm]
            · rw [show runLoop env map1 (b :: bs) { fs := fs1, coversMap := cm2 } =
                (processBook env map1 { fs := fs1, coversMap := cm2 } b >>=
                  fun stb => runLoop env map1 bs stb) from rfl, M_bind_run,
                processBook_skip2 env map1 { fs := fs1, coversMap := cm2 } b e
                  hnone hlook hpath hauth,
                M_pure_run]
          rw [hstep, ← hk0, assocSet_fresh e hnotcm2]
          refine ih (cm2 ++ [(k0, e)]) tail2 l ?_ htail2 hnd ?_
          · rw [hsplit, List.append_assoc]
            rfl
          · intro b2 hb2
            exact hskip b2 (List.mem_cons_of_mem b hb2)

/-! ### Claim C1: resolution resumability -/

/-- C1 counterexample: with a network where every call fails, the first
run records `path: null, author: null` for the book; the second run on
identical input, persisted map and files intact, hits neither skip state
(the entry has a null path but no truthy author) and re-issues the same
network calls — the second run's log is not empty. -/
theorem C1_counterexample :
    runLoop failNet [] [c1book] { fs := [], coversMap := [] } [] =
      (.ok { fs := [], coversMap := [("1", { path := none, author := JVal.null })] },
        [olSearchIsbnUrl "11", gbSearchUrl "11", gbSearchUrl "11"]) ∧
    (runLoop failNet [("1", { path := none, author := JVal.null })] [c1book]
      { fs := [], coversMap := [] } []).2 =
      [olSearchIsbnUrl "11", gbSearchUrl "11", gbSearchUrl "11"] ∧
    ([olSearchIsbnUrl "11", gbSearchUrl "11", gbSearchUrl "11"] : List String) ≠ [] := by
  refine ⟨rfl, rfl, by simp⟩

/-- C1 (amended): a second run on identical input with the persisted map
and downloaded files intact issues zero network calls and reproduces the
first run's map exactly, provided every book's first-run entry is either
a found cover (non-null path) or a no-cover entry with a truthy author;
a book whose first run found neither cover nor author (entry
`path: null, author: null`) is re-resolved with fresh network calls (see
the counterexample). -/
theorem C1_theorem (env : Net) (books : List Book) (ex0 : List (String × CoverEntry))
    (fs0 : List (String × Buf)) (st1 : RunState) (l1 : List String)
    (h1 : runLoop env ex0 books { fs := fs0, coversMap := [] } [] = (.ok st1, l1))
    (hnd : (books.map keyOf).Nodup)
    (hok : ∀ b ∈ books, ∀ e, alookup (keyOf b) st1.coversMap = some e →
      e.path ≠ none ∨ truthy e.author = true) :
    runLoop env st1.coversMap books { fs := st1.fs, coversMap := [] } [] =
      (.ok { fs := st1.fs, coversMap := st1.coversMap }, []) := by
  obtain ⟨hA, hE, hC, hB, hD⟩ :=
    runLoop_inv env ex0 books { fs := fs0, coversMap := [] } [] st1 l1 h1 hnd
      (fun b _ => by simp)
  have hkeys : st1.coversMap.map Prod.fst = books.map keyOf := by simpa using hA
  have hndm : (st1.coversMap.map Prod.fst).Nodup := by rw [hkeys]; exact hnd
  refine runLoop_allSkip env st1.coversMap st1.fs books [] st1.coversMap []
    (List.nil_append _).symm hkeys hndm ?_
  intro b hb
  obtain ⟨e, helook, hnorm, hcase⟩ := hD b hb
  refine ⟨e, helook, ?_⟩
  rcases hcase with ⟨hpath, hfile⟩ | ⟨hpath, hnone⟩
  · left
    refine ⟨hpath, ?_, hnorm⟩
    cases h2 : alookup (coverPathOf b) st1.fs with
    | none => exact absurd h2 hfile
    | some v => rfl
  · right
    refine ⟨hpath, ?_, hnone⟩
    rcases hok b hb e helook with hne | htr
    · exact absurd hpath hne
    · exact htr

set_option maxRecDepth 100000 in
/-- C1 witness: under an environment that serves covers, the first run
downloads the cover; the second run issues zero network calls and leaves
the persisted map and file system unchanged. -/
theorem C1_witness :
    runLoop c8envOL [] [c1book] { fs := [], coversMap := [] } [] =
      (.ok c1st1, [olSearchIsbnUrl "11", olCoverIsbnUrl "11"]) ∧
    ([c1book].map keyOf).Nodup ∧
    runLoop c8envOL c1st1.coversMap [c1book] { fs := c1st1.fs, coversMap := [] } [] =
      (.ok { fs := c1st1.fs, coversMap := c1st1.coversMap }, []) := by
  have h1 : runLoop c8envOL [] [c1book] { fs := [], coversMap := [] } [] =
      (.ok c1st1, [olSearchIsbnUrl "11", olCoverIsbnUrl "11"]) := rfl
  refine ⟨h1, by decide, ?_⟩
  refine C1_theorem c8envOL [c1book] [] [] c1st1
    [olSearchIsbnUrl "11", olCoverIsbnUrl "11"] h1 (by decide) ?_
  intro b hb e he
  rw [List.mem_singleton] at hb
  subst hb
  have he2 : some ({ path := some "covers/1.jpg", author := JVal.null } : CoverEntry) =
      some e := by
    rw [← he]
    rfl
  have he3 := Option.some.inj he2
  left
  rw [← he3]
  intro hcontra
  exact Option.noConfusion hcontra

/-! ### Properties of the loader -/

theorem jEq_str (a b : String) : jEq (.str a) (.str b) = true ↔ a = b := by
  unfold jEq
  exact beq_iff_eq

theorem dedupById_subset : ∀ (books : List Book) (seen : List JVal) (b : Book),
    b ∈ dedupById seen books → b ∈ books := by
  intro books
  induction books with
  | nil => intro seen b h; exact absurd h (by simp [dedupById])
  | cons b0 bs ih =>
      intro seen b h
      unfold dedupById at h
      by_cases hc : (seen.any (jEq b0.id)) = true
      · rw [if_pos hc] at h
        exact List.mem_cons_of_mem b0 (ih seen b h)
      · rw [if_neg hc] at h
        rcases List.mem_cons.mp h with h | h
        · exact h ▸ List.mem_cons_self b0 bs
        · exact List.mem_cons_of_mem b0 (ih (b0.id :: seen) b h)

theorem dedupById_spec : ∀ (books : List Book) (seen : List JVal),
    (∀ b ∈ dedupById seen books, (seen.any (jEq b.id)) = false) ∧
    List.Pairwise (fun a b : Book => jEq b.id a.id = false) (dedupById seen books) := by
  intro books
  induction books with
  | nil => intro seen; constructor
           · intro b h; exact absurd h (by simp [dedupById])
           · simp [dedupById]
  | cons b0 bs ih =>
      intro seen
      unfold dedupById
      by_cases hc : (seen.any (jEq b0.id)) = true
      · rw [if_pos hc]
        exact ih seen
      · rw [if_neg hc]
        obtain ⟨ihMem, ihPw⟩ := ih (b0.id :: seen)
        constructor
        · intro b hb
          rcases List.mem_cons.mp hb with hb | hb
          · subst hb
            exact Bool.not_eq_true _ ▸ hc
          · have := ihMem b hb
            simp only [List.any_cons, Bool.or_eq_false_iff] at this
            exact this.2
        · rw [List.pairwise_cons]
          constructor
          · intro b hb
            have := ihMem b hb
            simp only [List.any_cons, Bool.or_eq_false_iff] at this
            exact this.1
          · exact ihPw

theorem loadBooks_parts {data : JVal} {books : List Book}
    (h : loadBooks data = .ok books) :
    ∃ cats bs, jIterate data = .ok cats ∧ loadBooksCats cats = .ok bs ∧
      books = dedupById [] bs := by
  unfold loadBooks at h
  dsimp only [Bind.bind, Except.bind] at h
  cases h1 : jIterate data with
  | error u => rw [h1] at h; exact absurd h (by simp)
  | ok cats =>
      rw [h1] at h
      dsimp only at h
      cases h2 : loadBooksCats cats with
      | error u => rw [h2] at h; exact absurd h (by simp)
      | ok bs =>
          rw [h2] at h
          dsimp only [pure, Except.pure] at h
          exact ⟨cats, bs, rfl, h2, (Except.ok.inj h).symm⟩

theorem loadBooks_nodup {data : JVal} {books : List Book}
    (h : loadBooks data = .ok books)
    (hstr : ∀ b ∈ books, ∃ s, b.id = .str s) : (books.map keyOf).Nodup := by
  obtain ⟨cats, bs, h1, h2, h3⟩ := loadBooks_parts h
  subst h3
  have hpw := (dedupById_spec bs []).2
  have hpw2 : List.Pairwise (fun a b : Book => keyOf a ≠ keyOf b) (dedupById [] bs) := by
    refine hpw.imp_of_mem ?_
    intro a b ha hb hR
    obtain ⟨s, hs⟩ := hstr a ha
    obtain ⟨t, ht⟩ := hstr b hb
    rw [hs, ht] at hR
    intro hkeq
    rw [keyOf, keyOf, hs, ht] at hkeq
    dsimp only [jToStr] at hkeq
    rw [hkeq] at hR
    have : jEq (JVal.str t) (JVal.str t) = true := (jEq_str t t).mpr rfl
    rw [this] at hR
    exact Bool.true_eq_false.mp hR
  exact List.pairwise_map.mpr hpw2

theorem loadOneBook_isbns {b : JVal} {here : List Book}
    (h : loadOneBook b = .ok here) : ∀ bk ∈ here, bk.isbns ≠ [] := by
  unfold loadOneBook at h
  dsimp only [Bind.bind, Except.bind] at h
  cases h1 : jGet b "title" with
  | error u => rw [h1] at h; exact absurd h (by simp)
  | ok t =>
    rw [h1] at h; dsimp only at h
    cases h2 : jGet b "editions" with
    | error u => rw [h2] at h; exact absurd h (by simp)
    | ok eds =>
      rw [h2] at h; dsimp only at h
      by_cases hc : (truthy t && truthy eds) = true
      · rw [if_pos hc] at h
        cases h3 : jIterate eds with
        | error u => rw [h3] at h; exact absurd h (by simp)
        | ok edl =>
          rw [h3] at h; dsimp only at h
          cases h4 : collectIsbns edl with
          | error u => rw [h4] at h; exact absurd h (by simp)
          | ok isbns =>
            rw [h4] at h; dsimp only at h
            by_cases h5 : isbns.length > 0
            · rw [if_pos h5] at h
              cases h6 : jGet b "bookId" with
              | error u => rw [h6] at h; exact absurd h (by simp)
              | ok i1 =>
                rw [h6] at h; dsimp only at h
                have hfin : ∀ bid : JVal,
                    here = [({ id := bid, title := t, isbns := isbns } : Book)] →
                    ∀ bk ∈ here, bk.isbns ≠ [] := by
                  intro bid hh bk hbk
                  rw [hh, List.mem_singleton] at hbk
                  subst hbk
                  intro hnil
                  have hnil2 : isbns = [] := hnil
                  rw [hnil2] at h5
                  exact absurd h5 (by simp)
                by_cases h7 : truthy i1 = true
                · rw [if_pos h7] at h
                  dsimp only [pure, Except.pure] at h
                  exact hfin i1 (Except.ok.inj h).symm
                · rw [if_neg h7] at h
                  cases h8 : jGet b "bookid" with
                  | error u => rw [h8] at h; exact absurd h (by simp)
                  | ok i2 =>
                    rw [h8] at h
                    dsimp only [pure, Except.pure] at h
                    exact hfin i2 (Except.ok.inj h).symm
            · rw [if_neg h5] at h
              dsimp only [pure, Except.pure] at h
              have := (Except.ok.inj h).symm
              subst this
              intro bk hbk
              exact absurd hbk (List.not_mem_nil bk)
      · rw [if_neg hc] at h
        dsimp only [pure, Except.pure] at h
        have := (Except.ok.inj h).symm
        subst this
        intro bk hbk
        exact absurd hbk (List.not_mem_nil bk)

theorem loadCatBooks_isbns : ∀ (bl : List JVal) (books : List Book),
    loadCatBooks bl = .ok books → ∀ bk ∈ books, bk.isbns ≠ [] := by
  intro bl
  induction bl with
  | nil =>
      intro books h bk hbk
      rw [show loadCatBooks [] = .ok [] from rfl] at h
      have := (Except.ok.inj h).symm
      subst this
      exact absurd hbk (List.not_mem_nil bk)
  | cons b bs ih =>
      intro books h bk hbk
      unfold loadCatBooks at h
      dsimp only [Bind.bind, Except.bind] at h
      cases h1 : loadOneBook b with
      | error u => rw [h1] at h; exact absurd h (by simp)
      | ok here =>
        rw [h1] at h; dsimp only at h
        cases h2 : loadCatBooks bs with
        | error u => rw [h2] at h; exact absurd h (by simp)
        | ok rest =>
          rw [h2] at h
          dsimp only [pure, Except.pure] at h
          have := (Except.ok.inj h).symm
          subst this
          rcases List.mem_append.mp hbk with hm | hm
          · exact loadOneBook_isbns h1 bk hm
          · exact ih rest h2 bk hm

theorem loadOneCat_isbns {c : JVal} {books : List Book}
    (h : loadOneCat c = .ok books) : ∀ bk ∈ books, bk.isbns ≠ [] := by
  unfold loadOneCat at h
  dsimp only [Bind.bind, Except.bind] at h
  cases h1 : jGet c "type" with
  | error u => rw [h1] at h; exact absurd h (by simp)
  | ok t =>
    rw [h1] at h; dsimp only at h
    by_cases hc : (jStrEq t "myfinishedbooks" || jStrEq t "mysavedbooks") = true
    · rw [if_pos hc] at h
      cases h2 : jGet c "books" with
      | error u => rw [h2] at h; exact absurd h (by simp)
      | ok bsv =>
        rw [h2] at h; dsimp only at h
        cases h3 : jIterate (jOr bsv (.arr [])) with
        | error u => rw [h3] at h; exact absurd h (by simp)
        | ok bl =>
          rw [h3] at h; dsimp only at h
          exact loadCatBooks_isbns bl books h
    · rw [if_neg hc] at h
      dsimp only [pure, Except.pure] at h
      have := (Except.ok.inj h).symm
      subst this
      intro bk hbk
      exact absurd hbk (List.not_mem_nil bk)

theorem loadBooksCats_isbns : ∀ (cats : List JVal) (books : List Book),
    loadBooksCats cats = .ok books → ∀ bk ∈ books, bk.isbns ≠ [] := by
  intro cats
  induction cats with
  | nil =>
      intro books h bk hbk
      rw [show loadBooksCats [] = .ok [] from rfl] at h
      have := (Except.ok.inj h).symm
      subst this
      exact absurd hbk (List.not_mem_nil bk)
  | cons c cs ih =>
      intro books h bk hbk
      unfold loadBooksCats at h
      dsimp only [Bind.bind, Except.bind] at h
      cases h1 : loadOneCat c with
      | error u => rw [h1] at h; exact absurd h (by simp)
      | ok here =>
        rw [h1] at h; dsimp only at h
        cases h2 : loadBooksCats cs with
        | error u => rw [h2] at h; exact absurd h (by simp)
        | ok rest =>
          rw [h2] at h
          dsimp only [pure, Except.pure] at h
          have := (Except.ok.inj h).symm
          subst this
          rcases List.mem_append.mp hbk with hm | hm
          · exact loadOneCat_isbns h1 bk hm
          · exact ih rest h2 bk hm

theorem loadBooks_isbns {data : JVal} {books : List Book}
    (h : loadBooks data = .ok books) : ∀ bk ∈ books, bk.isbns ≠ [] := by
  obtain ⟨cats, bs, h1, h2, h3⟩ := loadBooks_parts h
  subst h3
  intro bk hbk
  exact loadBooksCats_isbns cats bs h2 bk (dedupById_subset bs [] bk hbk)

theorem alookup_assocSet_isSome {α : Type} (m : List (String × α)) (k k2 : String) (v : α)
    (h : (alookup k m).isSome = true) : (alookup k (assocSet m k2 v)).isSome = true := by
  by_cases hk : k = k2
  · subst hk
    rw [alookup_assocSet_self]
    rfl
  · rw [alookup_assocSet_ne _ _ _ hk]
    exact h

theorem runLoop_entries (env : Net) (ex : List (String × CoverEntry)) :
    ∀ (books : List Book) (st : RunState) (l : List String) (st2 : RunState)
      (l2 : List String),
    runLoop env ex books st l = (.ok st2, l2) →
    (∀ k, (alookup k st.coversMap).isSome = true →
      (alookup k st2.coversMap).isSome = true) ∧
    (∀ b ∈ books, (alookup (keyOf b) st2.coversMap).isSome = true) := by
  intro books
  induction books with
  | nil =>
      intro st l st2 l2 h
      rw [show runLoop env ex [] st = pure st from rfl, M_pure_run, Prod.mk.injEq] at h
      have hst := Except.ok.inj h.1
      subst hst
      exact ⟨fun k hk => hk, fun b hb => absurd hb (List.not_mem_nil b)⟩
  | cons b bs ih =>
      intro st l st2 l2 h
      rw [show runLoop env ex (b :: bs) st =
        (processBook env ex st b >>= fun stb => runLoop env ex bs stb) from rfl,
        M_bind_run] at h
      cases hpb : processBook env ex st b l with
      | mk r lb =>
        rw [hpb] at h
        cases r with
        | error u => exact absurd h (by simp)
        | ok stb =>
          obtain ⟨e, hcm, _, _⟩ := processBook_post env ex st b l stb lb hpb
          obtain ⟨ih1, ih2⟩ := ih stb lb st2 l2 h
          refine ⟨?_, ?_⟩
          · intro k hk
            refine ih1 k ?_
            rw [hcm]
            exact alookup_assocSet_isSome _ _ _ _ hk
          · intro b2 hb2
            rcases List.mem_cons.mp hb2 with hb2 | hb2
            · subst hb2
              refine ih1 (keyOf b2) ?_
              rw [hcm, alookup_assocSet_self]
              rfl
            · exact ih2 b2 hb2

/-! ### Claim C10: the persisted map is rebuilt from the current input -/

/-- C10: after a run, the persisted map's key list is exactly the key
list of the deduplicated loaded books (in order) — the map is rebuilt
from an empty object — and any key not among the current input's ids
(including entries of the previously persisted map) is absent from the
result.  The id-to-key correspondence is literal for string ids. -/
theorem C10_theorem (data : JVal) (books : List Book)
    (hload : loadBooks data = .ok books)
    (hstr : ∀ b ∈ books, ∃ s, b.id = .str s)
    (env : Net) (ex : List (String × CoverEntry)) (fs0 : List (String × Buf))
    (l : List String) (st2 : RunState) (l2 : List String)
    (hrun : runLoop env ex books { fs := fs0, coversMap := [] } l = (.ok st2, l2)) :
    st2.coversMap.map Prod.fst = books.map keyOf ∧
    (∀ b ∈ books, ∀ s, b.id = .str s → keyOf b = s) ∧
    (∀ k, k ∉ books.map keyOf → alookup k st2.coversMap = none) := by
  have hnd := loadBooks_nodup hload hstr
  obtain ⟨hA, hE, _, _, _⟩ :=
    runLoop_inv env ex books { fs := fs0, coversMap := [] } l st2 l2 hrun hnd
      (fun b _ => by simp)
  refine ⟨by simpa using hA, ?_, ?_⟩
  · intro b _ s hs
    rw [keyOf, hs]
    rfl
  · intro k hk
    rw [hE k hk]
    rfl

/-- C10 witness: a stale entry keyed `OLD` in the previously persisted
map is dropped, and the rebuilt map's keys are exactly the loaded ids. -/
theorem C10_witness :
    loadBooks c4LbA = .ok [bk42] ∧
    runLoop failNet [("OLD", { path := some "covers/OLD.jpg", author := JVal.null })]
      [bk42] { fs := [], coversMap := [] } [] =
      (.ok { fs := [], coversMap := [("42", { path := none, author := JVal.null })] },
        bk42log) ∧
    ([("42", ({ path := none, author := JVal.null } : CoverEntry))].map Prod.fst =
      [bk42].map keyOf ∧
     alookup "OLD" [("42", ({ path := none, author := JVal.null } : CoverEntry))] = none) := by
  have hload : loadBooks c4LbA = .ok [bk42] := rfl
  have hrun : runLoop failNet
      [("OLD", { path := some "covers/OLD.jpg", author := JVal.null })]
      [bk42] { fs := [], coversMap := [] } [] =
      (.ok { fs := [], coversMap := [("42", { path := none, author := JVal.null })] },
        bk42log) := rfl
  have hstr : ∀ b ∈ [bk42], ∃ s, b.id = .str s := by
    intro b hb
    rw [List.mem_singleton] at hb
    subst hb
    exact ⟨"42", rfl⟩
  obtain ⟨hk, _, hdrop⟩ := C10_theorem c4LbA [bk42] hload hstr failNet
    [("OLD", { path := some "covers/OLD.jpg", author := JVal.null })] [] []
    { fs := [], coversMap := [("42", { path := none, author := JVal.null })] }
    bk42log hrun
  refine ⟨hload, hrun, hk, hdrop "OLD" ?_⟩
  intro hm
  have : keyOf bk42 = "42" := rfl
  rw [List.map_cons] at hm
  rcases List.mem_cons.mp hm with hm | hm
  · exact absurd (this ▸ hm) (by decide)
  · exact absurd hm (List.not_mem_nil _)

/-! ### Claim C2: every loaded book gets an entry -/

/-- C2 counterexample: a book whose editions carry no ISBN at all is
excluded by the loader — `loadBooks` requires at least one collected
ISBN — so the pipeline run on this export records no entry for it and
the persisted map stays empty; the title fallback is never reached for
such a book. -/
theorem C2_counterexample :
    loadBooks c2data = .ok [] ∧
    mainRun c2env [] [] [] = (.ok { fs := [], coversMap := [] }, []) ∧
    alookup "1" ([] : List (String × CoverEntry)) = none := ⟨rfl, rfl, rfl⟩

/-- C2 (amended): every book in the deduplicated loaded input carries at
least one candidate ISBN — the loader drops books whose editions yield
none, so they are never resolved and get no entry (see the
counterexample) — and the pipeline records an entry keyed by the book's
id for every loaded book. -/
theorem C2_theorem (data : JVal) (books : List Book)
    (hload : loadBooks data = .ok books) :
    (∀ b ∈ books, b.isbns ≠ []) ∧
    (∀ (env : Net) (ex : List (String × CoverEntry)) (fs0 : List (String × Buf))
      (l : List String) (st2 : RunState) (l2 : List String),
      runLoop env ex books { fs := fs0, coversMap := [] } l = (.ok st2, l2) →
      ∀ b ∈ books, (alookup (keyOf b) st2.coversMap).isSome = true) := by
  refine ⟨loadBooks_isbns hload, ?_⟩
  intro env ex fs0 l st2 l2 hrun b hb
  exact (runLoop_entries env ex books { fs := fs0, coversMap := [] } l st2 l2 hrun).2 b hb

/-- C2 witness: the loaded book `bk42` has an ISBN and receives an entry
keyed by its id after a run against a failing network. -/
theorem C2_witness :
    loadBooks c4LbA = .ok [bk42] ∧
    bk42.isbns ≠ [] ∧
    runLoop failNet [] [bk42] { fs := [], coversMap := [] } [] =
      (.ok { fs := [], coversMap := [("42", { path := none, author := JVal.null })] },
        bk42log) ∧
    (alookup (keyOf bk42)
      [("42", ({ path := none, author := JVal.null } : CoverEntry))]).isSome = true := by
  have hload : loadBooks c4LbA = .ok [bk42] := rfl
  have hrun : runLoop failNet [] [bk42] { fs := [], coversMap := [] } [] =
      (.ok { fs := [], coversMap := [("42", { path := none, author := JVal.null })] },
        bk42log) := rfl
  refine ⟨hload, ?_, hrun, ?_⟩
  · exact (C2_theorem c4LbA [bk42] hload).1 bk42 (List.mem_singleton.mpr rfl)
  · exact (C2_theorem c4LbA [bk42] hload).2 failNet [] [] []
      { fs := [], coversMap := [("42", { path := none, author := JVal.null })] }
      bk42log hrun bk42 (List.mem_singleton.mpr rfl)
